import Mathlib

/-!
# CppTrader `examples/matching_engine.cpp`: the command-line driver

A shallow embedding of the interactive driver of the matching engine: the
twelve regex-based command handlers, the dispatch chain of `main`, and the
pieces of the C++ standard library they rely on (`std::string::find`,
`std::regex_search` for the ECMAScript patterns that occur in the file,
`std::stoi`, `std::string::c_str`).  The engine itself (`MarketManager`) is
not part of the file; it is an abstract state machine here and the driver
records every operation it issues.
-/

namespace MatchingEngine

/-- A `std::string`: a sequence of `char`. -/
abbrev Str := List Char

/-! ## `std::string::find` -/

/-- Scan for the first position at or after offset `i` where `pat` occurs. -/
def findFrom (pat : Str) : Str → Nat → Option Nat
  | [], i => if pat.isPrefixOf [] then some i else none
  | c :: t, i => if pat.isPrefixOf (c :: t) then some i else findFrom pat t (i + 1)

/-- `s.find(pat)`: index of the first occurrence, `none` for `npos`. -/
def find (s pat : Str) : Option Nat := findFrom pat s 0

/-- `s.c_str()` read as a C string: the characters before the first NUL. -/
def c_str (s : Str) : Str := s.takeWhile (fun c => c != Char.ofNat 0)

/-! ## `std::regex` (ECMAScript grammar, the constructs used by the driver) -/

/-- Regular expressions built from the constructs of the driver's patterns. -/
inductive Regex where
  | eps
  | bol
  | eol
  | lit (w : Str)
  | digit
  | dot
  | seq (r s : Regex)
  | alt (r s : Regex)
  | plus (r : Regex)
  | group (n : Nat) (r : Regex)
deriving DecidableEq

/-- Concatenation of a list of sub-patterns. -/
def Regex.cat : List Regex → Regex
  | [] => Regex.eps
  | r :: rs => Regex.seq r (Regex.cat rs)

/-- State of the backtracking matcher: unread input and the captures so far. -/
structure MState where
  rest : Str
  caps : List (Nat × Str)
deriving DecidableEq

/-- Class test of `\d` in the classic locale. -/
def isDigitChar (c : Char) : Bool := c.isDigit

/-- Class test of `.`: any character but the line terminators. -/
def isDotChar (c : Char) : Bool := c != '\n' && c != '\r'

/-- Greedy iteration `r+`: after one match of `r` try further iterations
first (each must consume input), then stop. -/
def plusLoop (step : MState → List MState) : Nat → MState → List MState
  | 0, _ => []
  | fuel + 1, st =>
    (step st).flatMap fun st1 =>
      (if st1.rest.length < st.rest.length then plusLoop step fuel st1 else []) ++ [st1]

/-- All ways of matching `r` at the current position, in backtracking
priority order.  `input` is the whole subject string: `^` matches only at
its first position and `$` only at its end. -/
def Regex.run (input : Str) : Regex → MState → List MState
  | .eps, st => [st]
  | .bol, st => if st.rest.length = input.length then [st] else []
  | .eol, st => if st.rest.isEmpty then [st] else []
  | .lit w, st =>
    if w.isPrefixOf st.rest then [⟨st.rest.drop w.length, st.caps⟩] else []
  | .digit, st =>
    match st.rest with
    | c :: t => if isDigitChar c then [⟨t, st.caps⟩] else []
    | [] => []
  | .dot, st =>
    match st.rest with
    | c :: t => if isDotChar c then [⟨t, st.caps⟩] else []
    | [] => []
  | .seq r s, st => (Regex.run input r st).flatMap (Regex.run input s)
  | .alt r s, st => Regex.run input r st ++ Regex.run input s st
  | .plus r, st => plusLoop (Regex.run input r) (st.rest.length + 1) st
  | .group n r, st =>
    (Regex.run input r st).map fun st1 =>
      ⟨st1.rest, (n, st.rest.take (st.rest.length - st1.rest.length)) :: st1.caps⟩

/-- A `std::smatch` after a successful search: the numbered sub-matches. -/
structure Smatch where
  caps : List (Nat × Str)
deriving DecidableEq

/-- The sub-match `match[i]` converted to a string (empty when unset). -/
def Smatch.get (m : Smatch) (i : Nat) : Str := (m.caps.lookup i).getD []

/-- Try the pattern at every start position of `input`, leftmost first. -/
def regex_search.go (input : Str) (pattern : Regex) : Str → Option Smatch
  | [] => ((pattern.run input ⟨[], []⟩).head?).map fun st => ⟨st.caps⟩
  | c :: t =>
    match (pattern.run input ⟨c :: t, []⟩).head? with
    | some st => some ⟨st.caps⟩
    | none => regex_search.go input pattern t

/-- The call `std::regex_search(command, match, pattern)`. -/
def regex_search (command : Str) (pattern : Regex) : Option Smatch :=
  regex_search.go command pattern command

/-! ## `std::stoi` and the integer conversions -/

/-- Exceptions thrown by `std::stoi`. -/
inductive Exception where
  | invalid_argument
  | out_of_range
deriving DecidableEq

/-- The test `std::isspace` in the classic locale. -/
def isspace (c : Char) : Bool :=
  c == ' ' || c == '\t' || c == '\n' || c == Char.ofNat 11 || c == Char.ofNat 12 || c == '\r'

/-- Value of a run of decimal digits, most significant first. -/
def decimalValue (ds : Str) : Nat :=
  ds.foldl (fun acc c => 10 * acc + (c.toNat - 48)) 0

/-- The optional sign in front of the digits: whether it is a minus, and
the text after it. -/
def stoi.sign : Str → Bool × Str
  | '-' :: t => (true, t)
  | '+' :: t => (false, t)
  | s => (false, s)

/-- `std::stoi(s)`: skip white space, read an optional sign and the longest
run of digits; no digits is `invalid_argument`, a value outside `int` is
`out_of_range`. -/
def stoi (s : Str) : Except Exception Int :=
  let s1 := s.dropWhile isspace
  let signed := stoi.sign s1
  let ds := signed.2.takeWhile isDigitChar
  if ds.isEmpty then Except.error Exception.invalid_argument
  else
    let v : Int := if signed.1 then -(decimalValue ds : Int) else (decimalValue ds : Int)
    if v < -2147483648 ∨ 2147483647 < v then Except.error Exception.out_of_range
    else Except.ok v

/-- Conversion of an `int` to `uint32_t`. -/
def toUInt32 (v : Int) : Nat := (v % 4294967296).toNat

/-- Conversion of an `int` to `uint64_t`. -/
def toUInt64 (v : Int) : Nat := (v % 18446744073709551616).toNat

/-! ## The engine interface seen by the driver -/

/-- Modelled from the spec: the error taxonomy of section 7 (the enumeration
`ErrorCode` is declared in a header that is not part of the driver). -/
inductive ErrorCode where
  | OK
  | SYMBOL_DUPLICATE
  | SYMBOL_NOT_FOUND
  | ORDER_BOOK_DUPLICATE
  | ORDER_BOOK_NOT_FOUND
  | ORDER_BOOK_EXISTS
  | ORDER_DUPLICATE
  | ORDER_NOT_FOUND
  | ORDER_ID_INVALID
  | ORDER_QUANTITY_INVALID
  | ORDER_PRICE_INVALID
  | ORDER_TYPE_INVALID
deriving DecidableEq

/-- Modelled from the spec: a symbol is an identifier and a name; the
constructor `Symbol(id, name)` receives the name as a C string. -/
structure Symbol where
  Id : Nat
  Name : Str
deriving DecidableEq

/-- Side of an order. -/
inductive OrderSide where
  | BUY
  | SELL
deriving DecidableEq

/-- The order types the driver can create. -/
inductive OrderType where
  | MARKET
  | LIMIT
deriving DecidableEq

/-- Modelled from the spec: the attributes of an order that the factory calls
of the driver determine.  `Slippage = none` is the factory default (no cap),
`AllOrNone` is the flag passed as last argument of the limit factories. -/
structure Order where
  Id : Nat
  SymbolId : Nat
  Kind : OrderType
  Side : OrderSide
  Price : Nat
  Quantity : Nat
  Slippage : Option Nat
  AllOrNone : Bool
deriving DecidableEq

/-- Modelled from the spec: `Order::BuyMarket(id, symbol, quantity[, slippage])`. -/
def Order.BuyMarket (id symbol quantity : Nat) (slippage : Option Nat) : Order :=
  ⟨id, symbol, OrderType.MARKET, OrderSide.BUY, 0, quantity, slippage, false⟩

/-- Modelled from the spec: `Order::SellMarket(id, symbol, quantity[, slippage])`. -/
def Order.SellMarket (id symbol quantity : Nat) (slippage : Option Nat) : Order :=
  ⟨id, symbol, OrderType.MARKET, OrderSide.SELL, 0, quantity, slippage, false⟩

/-- Modelled from the spec: `Order::BuyLimit(id, symbol, price, quantity[, aon])`. -/
def Order.BuyLimit (id symbol price quantity : Nat) (aon : Bool) : Order :=
  ⟨id, symbol, OrderType.LIMIT, OrderSide.BUY, price, quantity, none, aon⟩

/-- Modelled from the spec: `Order::SellLimit(id, symbol, price, quantity[, aon])`. -/
def Order.SellLimit (id symbol price quantity : Nat) (aon : Bool) : Order :=
  ⟨id, symbol, OrderType.LIMIT, OrderSide.SELL, price, quantity, none, aon⟩

/-- An engine operation issued by the driver, with its arguments. -/
inductive Op where
  | AddSymbol (symbol : Symbol)
  | DeleteSymbol (id : Nat)
  | AddOrderBook (symbol : Symbol)
  | DeleteOrderBook (id : Nat)
  | AddOrder (order : Order)
  | ReduceOrder (id quantity : Nat)
  | ModifyOrder (id new_price new_quantity : Nat)
  | ReplaceOrder (id new_id new_price new_quantity : Nat)
  | DeleteOrder (id : Nat)
  | EnableMatching
  | DisableMatching
deriving DecidableEq

/-- The `MarketManager` as the driver uses it: an abstract state machine.
The nine order and symbol operations return a status that the driver reads;
the two matching toggles are called as plain statements. -/
structure MarketManager (σ : Type) where
  AddSymbol : Symbol → σ → ErrorCode × σ
  DeleteSymbol : Nat → σ → ErrorCode × σ
  AddOrderBook : Symbol → σ → ErrorCode × σ
  DeleteOrderBook : Nat → σ → ErrorCode × σ
  AddOrder : Order → σ → ErrorCode × σ
  ReduceOrder : Nat → Nat → σ → ErrorCode × σ
  ModifyOrder : Nat → Nat → Nat → σ → ErrorCode × σ
  ReplaceOrder : Nat → Nat → Nat → Nat → σ → ErrorCode × σ
  DeleteOrder : Nat → σ → ErrorCode × σ
  EnableMatching : σ → σ
  DisableMatching : σ → σ

/-- A line written to `std::cerr`. -/
inductive Cerr where
  | Failed (command : String) (result : ErrorCode)
  | Invalid (command : String) (text : Str)
  | InvalidSide (kind : String) (side : Str)
  | Unknown (text : Str)
deriving DecidableEq

/-- What one handler call did: the engine state it leaves, the engine
operations it issued, what it wrote to `std::cerr`, and the exception that
escaped it, if any. -/
structure Outcome (σ : Type) where
  market : σ
  calls : List Op
  cerr : List Cerr
  thrown : Option Exception

/-- An exception leaves the handler before any engine call. -/
def Outcome.throw {σ : Type} (market : σ) (e : Exception) : Outcome σ :=
  ⟨market, [], [], some e⟩

/-- The common tail of every handler: the engine call `op` returned
`result`; report it when it is not `OK` and return. -/
def Outcome.ofResult {σ : Type} (command : String) (op : Op) (r : ErrorCode × σ) : Outcome σ :=
  ⟨r.2, [op], if r.1 ≠ ErrorCode.OK then [Cerr.Failed command r.1] else [], none⟩

/-- The pattern did not match: report the invalid command. -/
def Outcome.invalid {σ : Type} (market : σ) (command : String) (text : Str) : Outcome σ :=
  ⟨market, [], [Cerr.Invalid command text], none⟩

/-! ## The command handlers -/

section Handlers

variable {σ : Type}

/-- The pattern `^add symbol (\d+) (.+)$` of `AddSymbol`. -/
def AddSymbol.pattern : Regex :=
  Regex.cat
    [Regex.bol,
     Regex.lit "add symbol".toList,
     Regex.lit " ".toList,
     Regex.group 1 (Regex.plus Regex.digit),
     Regex.lit " ".toList,
     Regex.group 2 (Regex.plus Regex.dot),
     Regex.eol]

/-- Handler of `add symbol {Id} {Name}`. -/
def AddSymbol (M : MarketManager σ) (market : σ) (command : Str) : Outcome σ :=
  match regex_search command AddSymbol.pattern with
  | some m =>
    match stoi (m.get 1) with
    | Except.error e => Outcome.throw market e
    | Except.ok v1 =>
      let id := toUInt32 v1
      let name := m.get 2
      let symbol : Symbol := ⟨id, c_str name⟩
      Outcome.ofResult "add symbol" (Op.AddSymbol symbol) (M.AddSymbol symbol market)
  | none => Outcome.invalid market "add symbol" command

/-- The pattern `^delete symbol (\d+)$` of `DeleteSymbol`. -/
def DeleteSymbol.pattern : Regex :=
  Regex.cat
    [Regex.bol,
     Regex.lit "delete symbol".toList,
     Regex.lit " ".toList,
     Regex.group 1 (Regex.plus Regex.digit),
     Regex.eol]

/-- Handler of `delete symbol {Id}`. -/
def DeleteSymbol (M : MarketManager σ) (market : σ) (command : Str) : Outcome σ :=
  match regex_search command DeleteSymbol.pattern with
  | some m =>
    match stoi (m.get 1) with
    | Except.error e => Outcome.throw market e
    | Except.ok v1 =>
      let id := toUInt32 v1
      Outcome.ofResult "delete symbol" (Op.DeleteSymbol id) (M.DeleteSymbol id market)
  | none => Outcome.invalid market "delete symbol" command

/-- The pattern `^add book (\d+)$` of `AddOrderBook`. -/
def AddOrderBook.pattern : Regex :=
  Regex.cat
    [Regex.bol,
     Regex.lit "add book".toList,
     Regex.lit " ".toList,
     Regex.group 1 (Regex.plus Regex.digit),
     Regex.eol]

/-- Handler of `add book {Id}`. -/
def AddOrderBook (M : MarketManager σ) (market : σ) (command : Str) : Outcome σ :=
  match regex_search command AddOrderBook.pattern with
  | some m =>
    match stoi (m.get 1) with
    | Except.error e => Outcome.throw market e
    | Except.ok v1 =>
      let id := toUInt32 v1
      let symbol : Symbol := ⟨id, "".toList⟩
      Outcome.ofResult "add book" (Op.AddOrderBook symbol) (M.AddOrderBook symbol market)
  | none => Outcome.invalid market "add book" command

/-- The pattern `^delete book (\d+)$` of `DeleteOrderBook`. -/
def DeleteOrderBook.pattern : Regex :=
  Regex.cat
    [Regex.bol,
     Regex.lit "delete book".toList,
     Regex.lit " ".toList,
     Regex.group 1 (Regex.plus Regex.digit),
     Regex.eol]

/-- Handler of `delete book {Id}`. -/
def DeleteOrderBook (M : MarketManager σ) (market : σ) (command : Str) : Outcome σ :=
  match regex_search command DeleteOrderBook.pattern with
  | some m =>
    match stoi (m.get 1) with
    | Except.error e => Outcome.throw market e
    | Except.ok v1 =>
      let id := toUInt32 v1
      Outcome.ofResult "delete book" (Op.DeleteOrderBook id) (M.DeleteOrderBook id market)
  | none => Outcome.invalid market "delete book" command

/-- The pattern `^add market (buy|sell) (\d+) (\d+) (\d+)$` of `AddMarketOrder`. -/
def AddMarketOrder.pattern : Regex :=
  Regex.cat
    [Regex.bol,
     Regex.lit "add market".toList,
     Regex.lit " ".toList,
     Regex.group 1 (Regex.alt (Regex.lit "buy".toList) (Regex.lit "sell".toList)),
     Regex.lit " ".toList,
     Regex.group 2 (Regex.plus Regex.digit),
     Regex.lit " ".toList,
     Regex.group 3 (Regex.plus Regex.digit),
     Regex.lit " ".toList,
     Regex.group 4 (Regex.plus Regex.digit),
     Regex.eol]

/-- Handler of `add market {Side} {Id} {SymbolId} {Quantity}`. -/
def AddMarketOrder (M : MarketManager σ) (market : σ) (command : Str) : Outcome σ :=
  match regex_search command AddMarketOrder.pattern with
  | some m =>
    match stoi (m.get 2) with
    | Except.error e => Outcome.throw market e
    | Except.ok v2 =>
      match stoi (m.get 3) with
      | Except.error e => Outcome.throw market e
      | Except.ok v3 =>
        match stoi (m.get 4) with
        | Except.error e => Outcome.throw market e
        | Except.ok v4 =>
          let id := toUInt64 v2
          let symbol_id := toUInt32 v3
          let quantity := toUInt64 v4
          if m.get 1 = "buy".toList then
            let order := Order.BuyMarket id symbol_id quantity none
            Outcome.ofResult "add market" (Op.AddOrder order) (M.AddOrder order market)
          else if m.get 1 = "sell".toList then
            let order := Order.SellMarket id symbol_id quantity none
            Outcome.ofResult "add market" (Op.AddOrder order) (M.AddOrder order market)
          else ⟨market, [], [Cerr.InvalidSide "market" (m.get 1)], none⟩
  | none => Outcome.invalid market "add market" command

/-- The pattern `^add slippage market (buy|sell) (\d+) (\d+) (\d+) (\d+)$` of `AddSlippageMarketOrder`. -/
def AddSlippageMarketOrder.pattern : Regex :=
  Regex.cat
    [Regex.bol,
     Regex.lit "add slippage market".toList,
     Regex.lit " ".toList,
     Regex.group 1 (Regex.alt (Regex.lit "buy".toList) (Regex.lit "sell".toList)),
     Regex.lit " ".toList,
     Regex.group 2 (Regex.plus Regex.digit),
     Regex.lit " ".toList,
     Regex.group 3 (Regex.plus Regex.digit),
     Regex.lit " ".toList,
     Regex.group 4 (Regex.plus Regex.digit),
     Regex.lit " ".toList,
     Regex.group 5 (Regex.plus Regex.digit),
     Regex.eol]

/-- Handler of `add slippage market {Side} {Id} {SymbolId} {Quantity} {Slippage}`. -/
def AddSlippageMarketOrder (M : MarketManager σ) (market : σ) (command : Str) : Outcome σ :=
  match regex_search command AddSlippageMarketOrder.pattern with
  | some m =>
    match stoi (m.get 2) with
    | Except.error e => Outcome.throw market e
    | Except.ok v2 =>
      match stoi (m.get 3) with
      | Except.error e => Outcome.throw market e
      | Except.ok v3 =>
        match stoi (m.get 4) with
        | Except.error e => Outcome.throw market e
        | Except.ok v4 =>
          match stoi (m.get 5) with
          | Except.error e => Outcome.throw market e
          | Except.ok v5 =>
            let id := toUInt64 v2
            let symbol_id := toUInt32 v3
            let quantity := toUInt64 v4
            let slippage := toUInt64 v5
            if m.get 1 = "buy".toList then
              let order := Order.BuyMarket id symbol_id quantity (some slippage)
              Outcome.ofResult "add slippage market" (Op.AddOrder order) (M.AddOrder order market)
            else if m.get 1 = "sell".toList then
              let order := Order.SellMarket id symbol_id quantity (some slippage)
              Outcome.ofResult "add slippage market" (Op.AddOrder order) (M.AddOrder order market)
            else ⟨market, [], [Cerr.InvalidSide "market" (m.get 1)], none⟩
  | none => Outcome.invalid market "add slippage market" command

/-- The pattern `^add limit (buy|sell) (\d+) (\d+) (\d+) (\d+)$` of `AddLimitOrder`. -/
def AddLimitOrder.pattern : Regex :=
  Regex.cat
    [Regex.bol,
     Regex.lit "add limit".toList,
     Regex.lit " ".toList,
     Regex.group 1 (Regex.alt (Regex.lit "buy".toList) (Regex.lit "sell".toList)),
     Regex.lit " ".toList,
     Regex.group 2 (Regex.plus Regex.digit),
     Regex.lit " ".toList,
     Regex.group 3 (Regex.plus Regex.digit),
     Regex.lit " ".toList,
     Regex.group 4 (Regex.plus Regex.digit),
     Regex.lit " ".toList,
     Regex.group 5 (Regex.plus Regex.digit),
     Regex.eol]

/-- Handler of `add limit {Side} {Id} {SymbolId} {Price} {Quantity}`. -/
def AddLimitOrder (M : MarketManager σ) (market : σ) (command : Str) : Outcome σ :=
  match regex_search command AddLimitOrder.pattern with
  | some m =>
    match stoi (m.get 2) with
    | Except.error e => Outcome.throw market e
    | Except.ok v2 =>
      match stoi (m.get 3) with
      | Except.error e => Outcome.throw market e
      | Except.ok v3 =>
        match stoi (m.get 4) with
        | Except.error e => Outcome.throw market e
        | Except.ok v4 =>
          match stoi (m.get 5) with
          | Except.error e => Outcome.throw market e
          | Except.ok v5 =>
            let id := toUInt64 v2
            let symbol_id := toUInt32 v3
            let price := toUInt64 v4
            let quantity := toUInt64 v5
            if m.get 1 = "buy".toList then
              let order := Order.BuyLimit id symbol_id price quantity false
              Outcome.ofResult "add limit" (Op.AddOrder order) (M.AddOrder order market)
            else if m.get 1 = "sell".toList then
              let order := Order.SellLimit id symbol_id price quantity false
              Outcome.ofResult "add limit" (Op.AddOrder order) (M.AddOrder order market)
            else ⟨market, [], [Cerr.InvalidSide "limit" (m.get 1)], none⟩
  | none => Outcome.invalid market "add limit" command

/-- The pattern `^add aon limit (buy|sell) (\d+) (\d+) (\d+) (\d+)$` of `AddAONLimitOrder`. -/
def AddAONLimitOrder.pattern : Regex :=
  Regex.cat
    [Regex.bol,
     Regex.lit "add aon limit".toList,
     Regex.lit " ".toList,
     Regex.group 1 (Regex.alt (Regex.lit "buy".toList) (Regex.lit "sell".toList)),
     Regex.lit " ".toList,
     Regex.group 2 (Regex.plus Regex.digit),
     Regex.lit " ".toList,
     Regex.group 3 (Regex.plus Regex.digit),
     Regex.lit " ".toList,
     Regex.group 4 (Regex.plus Regex.digit),
     Regex.lit " ".toList,
     Regex.group 5 (Regex.plus Regex.digit),
     Regex.eol]

/-- Handler of `add aon limit {Side} {Id} {SymbolId} {Price} {Quantity}`. -/
def AddAONLimitOrder (M : MarketManager σ) (market : σ) (command : Str) : Outcome σ :=
  match regex_search command AddAONLimitOrder.pattern with
  | some m =>
    match stoi (m.get 2) with
    | Except.error e => Outcome.throw market e
    | Except.ok v2 =>
      match stoi (m.get 3) with
      | Except.error e => Outcome.throw market e
      | Except.ok v3 =>
        match stoi (m.get 4) with
        | Except.error e => Outcome.throw market e
        | Except.ok v4 =>
          match stoi (m.get 5) with
          | Except.error e => Outcome.throw market e
          | Except.ok v5 =>
            let id := toUInt64 v2
            let symbol_id := toUInt32 v3
            let price := toUInt64 v4
            let quantity := toUInt64 v5
            if m.get 1 = "buy".toList then
              let order := Order.BuyLimit id symbol_id price quantity true
              Outcome.ofResult "add aon limit" (Op.AddOrder order) (M.AddOrder order market)
            else if m.get 1 = "sell".toList then
              let order := Order.SellLimit id symbol_id price quantity true
              Outcome.ofResult "add aon limit" (Op.AddOrder order) (M.AddOrder order market)
            else ⟨market, [], [Cerr.InvalidSide "limit" (m.get 1)], none⟩
  | none => Outcome.invalid market "add aon limit" command

/-- The pattern `^reduce limit (\d+) (\d+)$` of `ReduceLimitOrder`. -/
def ReduceLimitOrder.pattern : Regex :=
  Regex.cat
    [Regex.bol,
     Regex.lit "reduce limit".toList,
     Regex.lit " ".toList,
     Regex.group 1 (Regex.plus Regex.digit),
     Regex.lit " ".toList,
     Regex.group 2 (Regex.plus Regex.digit),
     Regex.eol]

/-- Handler of `reduce limit {Id} {Quantity}`. -/
def ReduceLimitOrder (M : MarketManager σ) (market : σ) (command : Str) : Outcome σ :=
  match regex_search command ReduceLimitOrder.pattern with
  | some m =>
    match stoi (m.get 1) with
    | Except.error e => Outcome.throw market e
    | Except.ok v1 =>
      match stoi (m.get 2) with
      | Except.error e => Outcome.throw market e
      | Except.ok v2 =>
        let id := toUInt64 v1
        let quantity := toUInt64 v2
        Outcome.ofResult "reduce limit" (Op.ReduceOrder id quantity) (M.ReduceOrder id quantity market)
  | none => Outcome.invalid market "reduce limit" command

/-- The pattern `^modify limit (\d+) (\d+) (\d+)$` of `ModifyLimitOrder`. -/
def ModifyLimitOrder.pattern : Regex :=
  Regex.cat
    [Regex.bol,
     Regex.lit "modify limit".toList,
     Regex.lit " ".toList,
     Regex.group 1 (Regex.plus Regex.digit),
     Regex.lit " ".toList,
     Regex.group 2 (Regex.plus Regex.digit),
     Regex.lit " ".toList,
     Regex.group 3 (Regex.plus Regex.digit),
     Regex.eol]

/-- Handler of `modify limit {Id} {NewPrice} {NewQuantity}`. -/
def ModifyLimitOrder (M : MarketManager σ) (market : σ) (command : Str) : Outcome σ :=
  match regex_search command ModifyLimitOrder.pattern with
  | some m =>
    match stoi (m.get 1) with
    | Except.error e => Outcome.throw market e
    | Except.ok v1 =>
      match stoi (m.get 2) with
      | Except.error e => Outcome.throw market e
      | Except.ok v2 =>
        match stoi (m.get 3) with
        | Except.error e => Outcome.throw market e
        | Except.ok v3 =>
          let id := toUInt64 v1
          let new_price := toUInt64 v2
          let new_quantity := toUInt64 v3
          Outcome.ofResult "modify limit" (Op.ModifyOrder id new_price new_quantity) (M.ModifyOrder id new_price new_quantity market)
  | none => Outcome.invalid market "modify limit" command

/-- The pattern `^replace limit (\d+) (\d+) (\d+) (\d+)$` of `ReplaceLimitOrder`. -/
def ReplaceLimitOrder.pattern : Regex :=
  Regex.cat
    [Regex.bol,
     Regex.lit "replace limit".toList,
     Regex.lit " ".toList,
     Regex.group 1 (Regex.plus Regex.digit),
     Regex.lit " ".toList,
     Regex.group 2 (Regex.plus Regex.digit),
     Regex.lit " ".toList,
     Regex.group 3 (Regex.plus Regex.digit),
     Regex.lit " ".toList,
     Regex.group 4 (Regex.plus Regex.digit),
     Regex.eol]

/-- Handler of `replace limit {Id} {NewId} {NewPrice} {NewQuantity}`. -/
def ReplaceLimitOrder (M : MarketManager σ) (market : σ) (command : Str) : Outcome σ :=
  match regex_search command ReplaceLimitOrder.pattern with
  | some m =>
    match stoi (m.get 1) with
    | Except.error e => Outcome.throw market e
    | Except.ok v1 =>
      match stoi (m.get 2) with
      | Except.error e => Outcome.throw market e
      | Except.ok v2 =>
        match stoi (m.get 3) with
        | Except.error e => Outcome.throw market e
        | Except.ok v3 =>
          match stoi (m.get 4) with
          | Except.error e => Outcome.throw market e
          | Except.ok v4 =>
            let id := toUInt64 v1
            let new_id := toUInt64 v2
            let new_price := toUInt64 v3
            let new_quantity := toUInt64 v4
            Outcome.ofResult "replace limit" (Op.ReplaceOrder id new_id new_price new_quantity) (M.ReplaceOrder id new_id new_price new_quantity market)
  | none => Outcome.invalid market "replace limit" command

/-- The pattern `^delete order (\d+)$` of `DeleteOrder`. -/
def DeleteOrder.pattern : Regex :=
  Regex.cat
    [Regex.bol,
     Regex.lit "delete order".toList,
     Regex.lit " ".toList,
     Regex.group 1 (Regex.plus Regex.digit),
     Regex.eol]

/-- Handler of `delete order {Id}`. -/
def DeleteOrder (M : MarketManager σ) (market : σ) (command : Str) : Outcome σ :=
  match regex_search command DeleteOrder.pattern with
  | some m =>
    match stoi (m.get 1) with
    | Except.error e => Outcome.throw market e
    | Except.ok v1 =>
      let id := toUInt64 v1
      Outcome.ofResult "delete order" (Op.DeleteOrder id) (M.DeleteOrder id market)
  | none => Outcome.invalid market "delete order" command

end Handlers

/-! ## The observer passed to the engine -/

/-- The `MarketHandler` callbacks that `MyMarketHandler` overrides, in the
order of the class body. -/
inductive MarketHandlerCallback where
  | onAddSymbol
  | onDeleteSymbol
  | onAddOrderBook
  | onUpdateOrderBook
  | onDeleteOrderBook
  | onAddLevel
  | onUpdateLevel
  | onDeleteLevel
  | onAddOrder
  | onUpdateOrder
  | onDeleteOrder
  | onExecuteOrder
deriving DecidableEq

/-- The member functions of `MyMarketHandler`. -/
def MyMarketHandler : List MarketHandlerCallback :=
  [MarketHandlerCallback.onAddSymbol, MarketHandlerCallback.onDeleteSymbol,
   MarketHandlerCallback.onAddOrderBook, MarketHandlerCallback.onUpdateOrderBook,
   MarketHandlerCallback.onDeleteOrderBook,
   MarketHandlerCallback.onAddLevel, MarketHandlerCallback.onUpdateLevel,
   MarketHandlerCallback.onDeleteLevel,
   MarketHandlerCallback.onAddOrder, MarketHandlerCallback.onUpdateOrder,
   MarketHandlerCallback.onDeleteOrder,
   MarketHandlerCallback.onExecuteOrder]

/-! ## `main` -/

/-- The lines printed after `Supported commands: ` by the `help` command. -/
def helpCommands : List Str :=
  ["add symbol \x7bId\x7d \x7bName\x7d - Add a new symbol with \x7bId\x7d and \x7bName\x7d".toList,
   "delete symbol \x7bId\x7d - Delete the symbol with \x7bId\x7d".toList,
   "add book \x7bId\x7d - Add a new order book for the symbol with \x7bId\x7d".toList,
   "delete book \x7bId\x7d - Delete the order book with \x7bId\x7d".toList,
   "add market \x7bSide\x7d \x7bId\x7d \x7bSymbolId\x7d \x7bQuantity\x7d - Add a new market order of \x7bType\x7d (buy/sell) with \x7bId\x7d, \x7bSymbolId\x7d and \x7bQuantity\x7d".toList,
   "add slippage market \x7bSide\x7d \x7bId\x7d \x7bSymbolId\x7d \x7bQuantity\x7d \x7bSlippage\x7d - Add a new slippage market order of \x7bType\x7d (buy/sell) with \x7bId\x7d, \x7bSymbolId\x7d, \x7bQuantity\x7d and \x7bSlippage\x7d".toList,
   "add limit \x7bSide\x7d \x7bId\x7d \x7bSymbolId\x7d \x7bPrice\x7d \x7bQuantity\x7d - Add a new limit order of \x7bType\x7d (buy/sell) with \x7bId\x7d, \x7bSymbolId\x7d, \x7bPrice\x7d and \x7bQuantity\x7d".toList,
   "add aon limit \x7bSide\x7d \x7bId\x7d \x7bSymbolId\x7d \x7bPrice\x7d \x7bQuantity\x7d - Add a new 'All-Or-None' limit order of \x7bType\x7d (buy/sell) with \x7bId\x7d, \x7bSymbolId\x7d, \x7bPrice\x7d and \x7bQuantity\x7d".toList,
   "reduce limit \x7bId\x7d \x7bQuantity\x7d - Reduce the limit order with \x7bId\x7d by the given \x7bQuantity\x7d".toList,
   "modify limit \x7bId\x7d \x7bNewPrice\x7d \x7bNewQuantity\x7d - Modify the limit order with \x7bId\x7d and set \x7bNewPrice\x7d and \x7bNewQuantity\x7d".toList,
   "replace limit \x7bId\x7d \x7bNewId\x7d \x7bNewPrice\x7d \x7bNewQuantity\x7d - Replace the limit order with \x7bId\x7d and set \x7bNewId\x7d, \x7bNewPrice\x7d and \x7bNewQuantity\x7d".toList,
   "delete order \x7bId\x7d - Delete the order with \x7bId\x7d".toList,
   "exit/quit - Exit the program".toList]

/-- The whole output of the `help` command. -/
def helpText : List Str := "Supported commands: ".toList :: helpCommands

/-- How the read loop goes on after a line: read the next line, leave the
loop (`break`), or the program is terminated by an uncaught exception. -/
inductive Flow where
  | next
  | exit
  | terminate (e : Exception)
deriving DecidableEq

/-- What the loop body did for one input line. -/
structure LineResult (σ : Type) where
  market : σ
  calls : List Op
  cerr : List Cerr
  cout : List Str
  flow : Flow

/-- A handler returned (the loop goes on) or an exception escaped it (the
exception is caught nowhere, the program is terminated). -/
def LineResult.ofOutcome {σ : Type} (o : Outcome σ) : LineResult σ :=
  ⟨o.market, o.calls, o.cerr, [],
    match o.thrown with
    | some e => Flow.terminate e
    | none => Flow.next⟩

/-- The body of the `while (getline(std::cin, line))` loop of `main`. -/
def processLine {σ : Type} (M : MarketManager σ) (market : σ) (line : Str) : LineResult σ :=
  if line = "help".toList then ⟨market, [], [], helpText, Flow.next⟩
  else if line = "exit".toList ∨ line = "quit".toList then ⟨market, [], [], [], Flow.exit⟩
  else if find line "#".toList = some 0 ∨ line = "".toList then ⟨market, [], [], [], Flow.next⟩
  else if line = "enable matching".toList then
    ⟨M.EnableMatching market, [Op.EnableMatching], [], [], Flow.next⟩
  else if line = "disable matching".toList then
    ⟨M.DisableMatching market, [Op.DisableMatching], [], [], Flow.next⟩
  else if find line "add symbol".toList ≠ none then
    LineResult.ofOutcome (AddSymbol M market line)
  else if find line "delete symbol".toList ≠ none then
    LineResult.ofOutcome (DeleteSymbol M market line)
  else if find line "add book".toList ≠ none then
    LineResult.ofOutcome (AddOrderBook M market line)
  else if find line "delete book".toList ≠ none then
    LineResult.ofOutcome (DeleteOrderBook M market line)
  else if find line "add market".toList ≠ none then
    LineResult.ofOutcome (AddMarketOrder M market line)
  else if find line "add slippage market".toList ≠ none then
    LineResult.ofOutcome (AddSlippageMarketOrder M market line)
  else if find line "add limit".toList ≠ none then
    LineResult.ofOutcome (AddLimitOrder M market line)
  else if find line "add aon limit".toList ≠ none then
    LineResult.ofOutcome (AddAONLimitOrder M market line)
  else if find line "reduce limit".toList ≠ none then
    LineResult.ofOutcome (ReduceLimitOrder M market line)
  else if find line "modify limit".toList ≠ none then
    LineResult.ofOutcome (ModifyLimitOrder M market line)
  else if find line "replace limit".toList ≠ none then
    LineResult.ofOutcome (ReplaceLimitOrder M market line)
  else if find line "delete order".toList ≠ none then
    LineResult.ofOutcome (DeleteOrder M market line)
  else ⟨market, [], [Cerr.Unknown line], [], Flow.next⟩

/-- The result of a whole run of `main`. -/
structure Run (σ : Type) where
  market : σ
  calls : List Op
  cerr : List Cerr
  cout : List Str
  terminated : Option Exception

/-- The read loop of `main` over the lines of standard input. -/
def mainLoop {σ : Type} (M : MarketManager σ) : List Str → σ → Run σ
  | [], market => ⟨market, [], [], [], none⟩
  | line :: lines, market =>
    let r := processLine M market line
    match r.flow with
    | Flow.next =>
      let rest := mainLoop M lines r.market
      ⟨rest.market, r.calls ++ rest.calls, r.cerr ++ rest.cerr, r.cout ++ rest.cout,
        rest.terminated⟩
    | Flow.exit => ⟨r.market, r.calls, r.cerr, r.cout, none⟩
    | Flow.terminate e => ⟨r.market, r.calls, r.cerr, r.cout, some e⟩

/-! ## The command grammar of the help text -/

/-- The placeholders of the usage lines: `{Side}`, a numeric placeholder
such as `{Id}`, and `{Name}`. -/
inductive Field where
  | side
  | num
  | name
deriving DecidableEq

/-- The sub-pattern that captures a field. -/
def Field.regex : Field → Regex
  | Field.side => Regex.alt (Regex.lit "buy".toList) (Regex.lit "sell".toList)
  | Field.num => Regex.plus Regex.digit
  | Field.name => Regex.plus Regex.dot

/-- The texts a field admits: `buy` or `sell`; a non-empty run of decimal
digits; a non-empty run of characters none of which ends a line. -/
def Field.ok : Field → Str → Prop
  | Field.side, a => a = "buy".toList ∨ a = "sell".toList
  | Field.num, a => a ≠ [] ∧ ∀ c ∈ a, isDigitChar c = true
  | Field.name, a => a ≠ [] ∧ ∀ c ∈ a, isDotChar c = true

/-- `Fields fs t vs`: the text `t` after the keyword consists of the fields
`fs`, each preceded by exactly one space, with texts `vs`. -/
inductive Fields : List Field → Str → List Str → Prop where
  | nil : Fields [] [] []
  | cons {f : Field} {fs : List Field} {a b : Str} {vs : List Str} :
      f.ok a → Fields fs b vs → Fields (f :: fs) (' ' :: (a ++ b)) (a :: vs)

/-- The atoms of a command pattern after the keyword: a space and a
capturing group per field, numbered from `i`, then `$`. -/
def fieldAtoms : Nat → List Field → List Regex
  | _, [] => [Regex.eol]
  | i, f :: fs => Regex.lit " ".toList :: Regex.group i f.regex :: fieldAtoms (i + 1) fs

/-- The anchored pattern of a command with keyword `kw` and fields `fs`. -/
def commandPattern (kw : Str) (fs : List Field) : Regex :=
  Regex.cat (Regex.bol :: Regex.lit kw :: fieldAtoms 1 fs)

/-- The captures left by a match of `fieldAtoms i`, last group first. -/
def revCaps : Nat → List Str → List (Nat × Str)
  | _, [] => []
  | i, v :: vs => revCaps (i + 1) vs ++ [(i, v)]

/-- Only the last field may contain spaces. -/
def tokensFirst : List Field → Prop
  | [] => True
  | [_] => True
  | f :: g :: fs => f ≠ Field.name ∧ tokensFirst (g :: fs)

/-- The twelve commands with arguments, in the order of the dispatch chain
of `main` (which is also the order of the help text). -/
inductive Command where
  | AddSymbol
  | DeleteSymbol
  | AddOrderBook
  | DeleteOrderBook
  | AddMarketOrder
  | AddSlippageMarketOrder
  | AddLimitOrder
  | AddAONLimitOrder
  | ReduceLimitOrder
  | ModifyLimitOrder
  | ReplaceLimitOrder
  | DeleteOrder
deriving DecidableEq

/-- The command name used in the diagnostics of the handler. -/
def Command.name : Command → String
  | Command.AddSymbol => "add symbol"
  | Command.DeleteSymbol => "delete symbol"
  | Command.AddOrderBook => "add book"
  | Command.DeleteOrderBook => "delete book"
  | Command.AddMarketOrder => "add market"
  | Command.AddSlippageMarketOrder => "add slippage market"
  | Command.AddLimitOrder => "add limit"
  | Command.AddAONLimitOrder => "add aon limit"
  | Command.ReduceLimitOrder => "reduce limit"
  | Command.ModifyLimitOrder => "modify limit"
  | Command.ReplaceLimitOrder => "replace limit"
  | Command.DeleteOrder => "delete order"

/-- The keyword that `main` looks for in the line. -/
def Command.keyword (c : Command) : Str := c.name.toList

/-- The placeholders after the keyword in the usage line of the help text. -/
def Command.fields : Command → List Field
  | Command.AddSymbol => [Field.num, Field.name]
  | Command.DeleteSymbol => [Field.num]
  | Command.AddOrderBook => [Field.num]
  | Command.DeleteOrderBook => [Field.num]
  | Command.AddMarketOrder => [Field.side, Field.num, Field.num, Field.num]
  | Command.AddSlippageMarketOrder => [Field.side, Field.num, Field.num, Field.num, Field.num]
  | Command.AddLimitOrder => [Field.side, Field.num, Field.num, Field.num, Field.num]
  | Command.AddAONLimitOrder => [Field.side, Field.num, Field.num, Field.num, Field.num]
  | Command.ReduceLimitOrder => [Field.num, Field.num]
  | Command.ModifyLimitOrder => [Field.num, Field.num, Field.num]
  | Command.ReplaceLimitOrder => [Field.num, Field.num, Field.num, Field.num]
  | Command.DeleteOrder => [Field.num]

/-- The pattern of the handler of a command. -/
def Command.pattern : Command → Regex
  | Command.AddSymbol => MatchingEngine.AddSymbol.pattern
  | Command.DeleteSymbol => MatchingEngine.DeleteSymbol.pattern
  | Command.AddOrderBook => MatchingEngine.AddOrderBook.pattern
  | Command.DeleteOrderBook => MatchingEngine.DeleteOrderBook.pattern
  | Command.AddMarketOrder => MatchingEngine.AddMarketOrder.pattern
  | Command.AddSlippageMarketOrder => MatchingEngine.AddSlippageMarketOrder.pattern
  | Command.AddLimitOrder => MatchingEngine.AddLimitOrder.pattern
  | Command.AddAONLimitOrder => MatchingEngine.AddAONLimitOrder.pattern
  | Command.ReduceLimitOrder => MatchingEngine.ReduceLimitOrder.pattern
  | Command.ModifyLimitOrder => MatchingEngine.ModifyLimitOrder.pattern
  | Command.ReplaceLimitOrder => MatchingEngine.ReplaceLimitOrder.pattern
  | Command.DeleteOrder => MatchingEngine.DeleteOrder.pattern

/-- The handler that `main` calls for a command. -/
def Command.handler {σ : Type} (c : Command) (M : MarketManager σ) (market : σ)
    (line : Str) : Outcome σ :=
  match c with
  | Command.AddSymbol => MatchingEngine.AddSymbol M market line
  | Command.DeleteSymbol => MatchingEngine.DeleteSymbol M market line
  | Command.AddOrderBook => MatchingEngine.AddOrderBook M market line
  | Command.DeleteOrderBook => MatchingEngine.DeleteOrderBook M market line
  | Command.AddMarketOrder => MatchingEngine.AddMarketOrder M market line
  | Command.AddSlippageMarketOrder => MatchingEngine.AddSlippageMarketOrder M market line
  | Command.AddLimitOrder => MatchingEngine.AddLimitOrder M market line
  | Command.AddAONLimitOrder => MatchingEngine.AddAONLimitOrder M market line
  | Command.ReduceLimitOrder => MatchingEngine.ReduceLimitOrder M market line
  | Command.ModifyLimitOrder => MatchingEngine.ModifyLimitOrder M market line
  | Command.ReplaceLimitOrder => MatchingEngine.ReplaceLimitOrder M market line
  | Command.DeleteOrder => MatchingEngine.DeleteOrder M market line

/-- Position of the command in the dispatch chain. -/
def Command.index : Command → Nat
  | Command.AddSymbol => 0
  | Command.DeleteSymbol => 1
  | Command.AddOrderBook => 2
  | Command.DeleteOrderBook => 3
  | Command.AddMarketOrder => 4
  | Command.AddSlippageMarketOrder => 5
  | Command.AddLimitOrder => 6
  | Command.AddAONLimitOrder => 7
  | Command.ReduceLimitOrder => 8
  | Command.ModifyLimitOrder => 9
  | Command.ReplaceLimitOrder => 10
  | Command.DeleteOrder => 11

/-- The side named by a `{Side}` field. -/
def sideOf (a : Str) : OrderSide :=
  if a = "buy".toList then OrderSide.BUY else OrderSide.SELL

/-- A market order of the given side. -/
def marketOrder (side : OrderSide) (id symbol quantity : Nat) (slippage : Option Nat) : Order :=
  match side with
  | OrderSide.BUY => Order.BuyMarket id symbol quantity slippage
  | OrderSide.SELL => Order.SellMarket id symbol quantity slippage

/-- A limit order of the given side. -/
def limitOrder (side : OrderSide) (id symbol price quantity : Nat) (aon : Bool) : Order :=
  match side with
  | OrderSide.BUY => Order.BuyLimit id symbol price quantity aon
  | OrderSide.SELL => Order.SellLimit id symbol price quantity aon

/-- The engine operation a command line stands for, read off the usage
lines of the help text: the fields in the order given there, numerals by
their decimal value, the symbol name as the C string of the `{Name}` text. -/
def Command.denote : Command → List Str → Option Op
  | Command.AddSymbol, [i, n] => some (Op.AddSymbol ⟨decimalValue i, c_str n⟩)
  | Command.DeleteSymbol, [i] => some (Op.DeleteSymbol (decimalValue i))
  | Command.AddOrderBook, [i] => some (Op.AddOrderBook ⟨decimalValue i, []⟩)
  | Command.DeleteOrderBook, [i] => some (Op.DeleteOrderBook (decimalValue i))
  | Command.AddMarketOrder, [s, i, y, q] =>
    some (Op.AddOrder (marketOrder (sideOf s) (decimalValue i) (decimalValue y)
      (decimalValue q) none))
  | Command.AddSlippageMarketOrder, [s, i, y, q, l] =>
    some (Op.AddOrder (marketOrder (sideOf s) (decimalValue i) (decimalValue y)
      (decimalValue q) (some (decimalValue l))))
  | Command.AddLimitOrder, [s, i, y, p, q] =>
    some (Op.AddOrder (limitOrder (sideOf s) (decimalValue i) (decimalValue y)
      (decimalValue p) (decimalValue q) false))
  | Command.AddAONLimitOrder, [s, i, y, p, q] =>
    some (Op.AddOrder (limitOrder (sideOf s) (decimalValue i) (decimalValue y)
      (decimalValue p) (decimalValue q) true))
  | Command.ReduceLimitOrder, [i, q] => some (Op.ReduceOrder (decimalValue i) (decimalValue q))
  | Command.ModifyLimitOrder, [i, p, q] =>
    some (Op.ModifyOrder (decimalValue i) (decimalValue p) (decimalValue q))
  | Command.ReplaceLimitOrder, [i, n, p, q] =>
    some (Op.ReplaceOrder (decimalValue i) (decimalValue n) (decimalValue p) (decimalValue q))
  | Command.DeleteOrder, [i] => some (Op.DeleteOrder (decimalValue i))
  | _, _ => none

/-- The texts of the numeric fields among the field texts `vs`. -/
def numerals : List Field → List Str → List Str
  | Field.num :: fs, v :: vs => v :: numerals fs vs
  | _ :: fs, _ :: vs => numerals fs vs
  | _, _ => []

/-- Every numeral of the line has a value that fits `int`. -/
def Command.inRange (c : Command) (vs : List Str) : Prop :=
  ∀ a ∈ numerals c.fields vs, decimalValue a ≤ 2147483647

/-- The answer of the engine to an operation: the status it returns (the
matching toggles return none that the driver reads) and its next state. -/
def MarketManager.reply {σ : Type} (M : MarketManager σ) (op : Op) (market : σ) :
    Option ErrorCode × σ :=
  match op with
  | Op.AddSymbol symbol => ((M.AddSymbol symbol market).1, (M.AddSymbol symbol market).2)
  | Op.DeleteSymbol id => ((M.DeleteSymbol id market).1, (M.DeleteSymbol id market).2)
  | Op.AddOrderBook symbol =>
    ((M.AddOrderBook symbol market).1, (M.AddOrderBook symbol market).2)
  | Op.DeleteOrderBook id => ((M.DeleteOrderBook id market).1, (M.DeleteOrderBook id market).2)
  | Op.AddOrder order => ((M.AddOrder order market).1, (M.AddOrder order market).2)
  | Op.ReduceOrder id quantity =>
    ((M.ReduceOrder id quantity market).1, (M.ReduceOrder id quantity market).2)
  | Op.ModifyOrder id new_price new_quantity =>
    ((M.ModifyOrder id new_price new_quantity market).1,
      (M.ModifyOrder id new_price new_quantity market).2)
  | Op.ReplaceOrder id new_id new_price new_quantity =>
    ((M.ReplaceOrder id new_id new_price new_quantity market).1,
      (M.ReplaceOrder id new_id new_price new_quantity market).2)
  | Op.DeleteOrder id => ((M.DeleteOrder id market).1, (M.DeleteOrder id market).2)
  | Op.EnableMatching => (none, M.EnableMatching market)
  | Op.DisableMatching => (none, M.DisableMatching market)

/-- One step of a character class in the matcher. -/
def classStep (p : Char → Bool) (st : MState) : List MState :=
  match st.rest with
  | c :: t => if p c then [⟨t, st.caps⟩] else []
  | [] => []

/-- A line follows the usage of command `c` with field texts `vs`: it is the
keyword followed by the fields, each preceded by one space. -/
def Command.usage (c : Command) (line : Str) (vs : List Str) : Prop :=
  ∃ t, line = c.keyword ++ t ∧ Fields c.fields t vs

/-- The routes a line can take through the loop body of `main`. -/
inductive Dispatch {σ : Type} (M : MarketManager σ) (market : σ) (line : Str) :
    LineResult σ → Prop where
  | help : line = "help".toList → Dispatch M market line ⟨market, [], [], helpText, Flow.next⟩
  | exit : line = "exit".toList ∨ line = "quit".toList →
      Dispatch M market line ⟨market, [], [], [], Flow.exit⟩
  | skip : find line "#".toList = some 0 ∨ line = "".toList →
      Dispatch M market line ⟨market, [], [], [], Flow.next⟩
  | enable : line = "enable matching".toList →
      Dispatch M market line ⟨M.EnableMatching market, [Op.EnableMatching], [], [], Flow.next⟩
  | disable : line = "disable matching".toList →
      Dispatch M market line ⟨M.DisableMatching market, [Op.DisableMatching], [], [], Flow.next⟩
  | command (c : Command) : find line c.keyword ≠ none →
      Dispatch M market line (LineResult.ofOutcome (c.handler M market line))
  | unknown : Dispatch M market line ⟨market, [], [Cerr.Unknown line], [], Flow.next⟩

/-- `pat` and `s` agree on their common length. -/
def agree : Str → Str → Bool
  | [], _ => true
  | _, [] => true
  | p :: ps, c :: cs => p == c && agree ps cs

/-- No suffix of `s` agrees with `pat`: `pat` cannot start inside `s`. -/
def noOverlap (pat : Str) : Str → Bool
  | [] => true
  | c :: cs => !(agree pat (c :: cs)) && noOverlap pat cs

/-- The character is not the first letter of any command keyword. -/
def notKeywordInitial (c : Char) : Bool := c != 'a' && c != 'd' && c != 'r' && c != 'm'

/-- The text of a side in a command line. -/
def sideText : OrderSide → Str
  | OrderSide.BUY => "buy".toList
  | OrderSide.SELL => "sell".toList

/-- The words of a line after the keyword, each preceded by one space. -/
def spaced : List Str → Str
  | [] => []
  | w :: ws => ' ' :: (w ++ spaced ws)

/-- A decimal numeral: a non-empty string of the digits `0` to `9`. -/
abbrev Numeral (a : Str) : Prop := a ≠ [] ∧ ∀ c ∈ a, isDigitChar c = true

/-- The numeral denotes a value that fits the type `int`. -/
abbrev FitsInt (a : Str) : Prop := decimalValue a ≤ 2147483647

/-- An engine that accepts every operation, with no state. -/
def idleMarket : MarketManager Unit :=
  ⟨fun _ s => (ErrorCode.OK, s), fun _ s => (ErrorCode.OK, s), fun _ s => (ErrorCode.OK, s),
   fun _ s => (ErrorCode.OK, s), fun _ s => (ErrorCode.OK, s), fun _ _ s => (ErrorCode.OK, s),
   fun _ _ _ s => (ErrorCode.OK, s), fun _ _ _ _ s => (ErrorCode.OK, s),
   fun _ s => (ErrorCode.OK, s), fun s => s, fun s => s⟩

/-- An engine that rejects every operation, with no state. -/
def refusingMarket : MarketManager Unit :=
  ⟨fun _ s => (ErrorCode.SYMBOL_DUPLICATE, s), fun _ s => (ErrorCode.SYMBOL_NOT_FOUND, s),
   fun _ s => (ErrorCode.ORDER_BOOK_DUPLICATE, s), fun _ s => (ErrorCode.ORDER_BOOK_NOT_FOUND, s),
   fun _ s => (ErrorCode.ORDER_DUPLICATE, s), fun _ _ s => (ErrorCode.ORDER_NOT_FOUND, s),
   fun _ _ _ s => (ErrorCode.ORDER_NOT_FOUND, s), fun _ _ _ _ s => (ErrorCode.ORDER_NOT_FOUND, s),
   fun _ s => (ErrorCode.ORDER_NOT_FOUND, s), fun s => s, fun s => s⟩

/-- The keywords of the commands listed by `help`. -/
def listedKeywords : List Str :=
  ["add symbol".toList, "delete symbol".toList, "add book".toList, "delete book".toList,
   "add market".toList, "add slippage market".toList, "add limit".toList,
   "add aon limit".toList, "reduce limit".toList, "modify limit".toList,
   "replace limit".toList, "delete order".toList, "exit".toList, "quit".toList]

/-! ## Lemmas on the matcher -/

theorem isPrefixOf_eq_true_iff (w s : Str) : w.isPrefixOf s = true ↔ ∃ b, s = w ++ b := by
  rw [List.isPrefixOf_iff_prefix]
  constructor
  · rintro ⟨b, hb⟩; exact ⟨b, hb.symm⟩
  · rintro ⟨b, hb⟩; exact ⟨b, hb.symm⟩

theorem mem_run_lit (input w : Str) (st st1 : MState) :
    st1 ∈ Regex.run input (Regex.lit w) st ↔ ∃ b, st.rest = w ++ b ∧ st1 = ⟨b, st.caps⟩ := by
  unfold Regex.run
  by_cases h : w.isPrefixOf st.rest = true
  · rw [if_pos h]
    obtain ⟨b, hb⟩ := (isPrefixOf_eq_true_iff _ _).1 h
    simp only [List.mem_singleton]
    constructor
    · intro e; refine ⟨b, hb, ?_⟩; rw [e, hb]; simp
    · rintro ⟨b1, hb1, e⟩
      rw [e, hb1]; simp
  · rw [if_neg h]
    simp only [List.not_mem_nil, false_iff]
    rintro ⟨b, hb, -⟩
    exact h ((isPrefixOf_eq_true_iff _ _).2 ⟨b, hb⟩)

theorem run_digit (input : Str) : Regex.run input Regex.digit = classStep isDigitChar := by
  funext st; unfold Regex.run classStep; rfl

theorem run_dot (input : Str) : Regex.run input Regex.dot = classStep isDotChar := by
  funext st; unfold Regex.run classStep; rfl

theorem mem_plusLoop_class (p : Char → Bool) :
    ∀ (n : Nat) (st st1 : MState), st.rest.length < n →
      (st1 ∈ plusLoop (classStep p) n st ↔
        ∃ a b, a ≠ [] ∧ (∀ c ∈ a, p c = true) ∧ st.rest = a ++ b ∧ st1 = ⟨b, st.caps⟩) := by
  intro n
  induction n with
  | zero => intro st st1 h; omega
  | succ n ih =>
    intro st st1 hlen
    obtain ⟨rest, caps⟩ := st
    cases rest with
    | nil =>
      simp only [plusLoop, classStep, List.flatMap_nil, List.not_mem_nil, false_iff]
      rintro ⟨a, b, ha, -, hab, -⟩
      cases a with
      | nil => exact ha rfl
      | cons x xs => simp at hab
    | cons c t =>
      by_cases hp : p c = true
      · have hl : t.length < n := by simp at hlen; omega
        simp only [plusLoop, classStep, hp, if_true, List.flatMap_cons, List.flatMap_nil,
          List.append_nil, List.length_cons, Nat.lt_succ_self, List.mem_append,
          List.mem_singleton]
        rw [ih ⟨t, caps⟩ st1 hl]
        constructor
        · rintro (⟨a, b, ha, hall, hab, e⟩ | e)
          · refine ⟨c :: a, b, by simp, ?_, ?_, e⟩
            · intro x hx
              rcases List.mem_cons.1 hx with rfl | hx
              · exact hp
              · exact hall x hx
            · simp only at hab; simp [hab]
          · refine ⟨[c], t, by simp, ?_, by simp, e⟩
            intro x hx; simp at hx; rw [hx]; exact hp
        · rintro ⟨a, b, ha, hall, hab, e⟩
          cases a with
          | nil => exact absurd rfl ha
          | cons x xs =>
            simp only [List.cons_append, List.cons.injEq] at hab
            obtain ⟨rfl, hxs⟩ := hab
            cases xs with
            | nil => right; rw [e]; simp at hxs; rw [hxs]
            | cons y ys =>
              left
              refine ⟨y :: ys, b, by simp, ?_, hxs, e⟩
              intro z hz; exact hall z (List.mem_cons_of_mem _ hz)
      · have hp1 : p c = false := by simpa using hp
        simp only [plusLoop, classStep, hp1, Bool.false_eq_true, if_false, List.flatMap_nil,
          List.not_mem_nil, false_iff]
        · rintro ⟨a, b, ha, hall, hab, -⟩
          cases a with
          | nil => exact ha rfl
          | cons x xs =>
            simp only [List.cons_append, List.cons.injEq] at hab
            obtain ⟨rfl, -⟩ := hab
            exact hp (hall _ (List.mem_cons_self _ _))

theorem run_plus (input : Str) (r : Regex) (st : MState) :
    Regex.run input (Regex.plus r) st = plusLoop (Regex.run input r) (st.rest.length + 1) st := by
  rw [Regex.run]

theorem mem_run_field (input : Str) (f : Field) (st st1 : MState) :
    st1 ∈ Regex.run input f.regex st ↔
      ∃ a b, f.ok a ∧ st.rest = a ++ b ∧ st1 = ⟨b, st.caps⟩ := by
  cases f with
  | side =>
    simp only [Field.regex, Regex.run, List.mem_append]
    have h1 := mem_run_lit input "buy".toList st st1
    have h2 := mem_run_lit input "sell".toList st st1
    simp only [Regex.run] at h1 h2
    rw [h1, h2]
    simp only [Field.ok]
    constructor
    · rintro (⟨b, hb, e⟩ | ⟨b, hb, e⟩)
      · exact ⟨_, b, Or.inl rfl, hb, e⟩
      · exact ⟨_, b, Or.inr rfl, hb, e⟩
    · rintro ⟨a, b, (rfl | rfl), hb, e⟩
      · exact Or.inl ⟨b, hb, e⟩
      · exact Or.inr ⟨b, hb, e⟩
  | num =>
    simp only [Field.regex, Field.ok]
    have h := mem_plusLoop_class isDigitChar (st.rest.length + 1) st st1 (Nat.lt_succ_self _)
    rw [← run_digit input] at h
    rw [run_plus, h]
    constructor
    · rintro ⟨a, b, h1, h2, h3, h4⟩; exact ⟨a, b, ⟨h1, h2⟩, h3, h4⟩
    · rintro ⟨a, b, ⟨h1, h2⟩, h3, h4⟩; exact ⟨a, b, h1, h2, h3, h4⟩
  | name =>
    simp only [Field.regex, Field.ok]
    have h := mem_plusLoop_class isDotChar (st.rest.length + 1) st st1 (Nat.lt_succ_self _)
    rw [← run_dot input] at h
    rw [run_plus, h]
    constructor
    · rintro ⟨a, b, h1, h2, h3, h4⟩; exact ⟨a, b, ⟨h1, h2⟩, h3, h4⟩
    · rintro ⟨a, b, ⟨h1, h2⟩, h3, h4⟩; exact ⟨a, b, h1, h2, h3, h4⟩

theorem mem_run_group_field (input : Str) (i : Nat) (f : Field) (st st1 : MState) :
    st1 ∈ Regex.run input (Regex.group i f.regex) st ↔
      ∃ a b, f.ok a ∧ st.rest = a ++ b ∧ st1 = ⟨b, (i, a) :: st.caps⟩ := by
  simp only [Regex.run, List.mem_map]
  constructor
  · rintro ⟨st2, h2, e⟩
    obtain ⟨a, b, hok, hab, e2⟩ := (mem_run_field input f st st2).1 h2
    refine ⟨a, b, hok, hab, ?_⟩
    rw [← e, e2, hab]
    simp
  · rintro ⟨a, b, hok, hab, e⟩
    refine ⟨⟨b, st.caps⟩, (mem_run_field input f st _).2 ⟨a, b, hok, hab, rfl⟩, ?_⟩
    rw [e, hab]
    simp

theorem fields_nil_iff (t : Str) (vs : List Str) : Fields [] t vs ↔ t = [] ∧ vs = [] := by
  constructor
  · intro h; cases h; exact ⟨rfl, rfl⟩
  · rintro ⟨rfl, rfl⟩; exact Fields.nil

theorem fields_cons_iff (f : Field) (fs : List Field) (t : Str) (vs : List Str) :
    Fields (f :: fs) t vs ↔
      ∃ a b ws, f.ok a ∧ Fields fs b ws ∧ t = ' ' :: (a ++ b) ∧ vs = a :: ws := by
  constructor
  · intro h
    cases h with
    | cons hok hrest => exact ⟨_, _, _, hok, hrest, rfl, rfl⟩
  · rintro ⟨a, b, ws, hok, hrest, rfl, rfl⟩
    exact Fields.cons hok hrest

theorem mem_run_fieldAtoms (input : Str) :
    ∀ (fs : List Field) (i : Nat) (st st1 : MState),
      st1 ∈ Regex.run input (Regex.cat (fieldAtoms i fs)) st ↔
        ∃ vs, Fields fs st.rest vs ∧ st1 = ⟨[], revCaps i vs ++ st.caps⟩ := by
  intro fs
  induction fs with
  | nil =>
    intro i st st1
    obtain ⟨rest, caps⟩ := st
    simp only [fieldAtoms, Regex.cat, Regex.run, fields_nil_iff]
    cases rest with
    | nil => simp [revCaps]
    | cons c t => simp
  | cons f fs ih =>
    intro i st st1
    simp only [fieldAtoms, Regex.cat]
    rw [Regex.run, List.mem_flatMap]
    constructor
    · rintro ⟨st2, h2, h3⟩
      obtain ⟨b, hb, e2⟩ := (mem_run_lit input _ st st2).1 h2
      rw [Regex.run, List.mem_flatMap] at h3
      obtain ⟨st3, h3, h4⟩ := h3
      obtain ⟨a, b1, hok, hab, e3⟩ := (mem_run_group_field input i f st2 st3).1 h3
      obtain ⟨ws, hws, e4⟩ := (ih (i + 1) st3 st1).1 h4
      refine ⟨a :: ws, ?_, ?_⟩
      · rw [hb]
        rw [e2] at hab
        simp only at hab
        rw [hab]
        rw [e3] at hws
        exact Fields.cons hok hws
      · rw [e4, e3, e2]
        simp [revCaps]
    · rintro ⟨vs, hvs, e⟩
      obtain ⟨a, b, ws, hok, hrest, ht, rfl⟩ := (fields_cons_iff _ _ _ _).1 hvs
      refine ⟨⟨a ++ b, st.caps⟩, (mem_run_lit input _ st _).2 ⟨a ++ b, by rw [ht]; rfl, rfl⟩, ?_⟩
      rw [Regex.run, List.mem_flatMap]
      refine ⟨⟨b, (i, a) :: st.caps⟩,
        (mem_run_group_field input i f _ _).2 ⟨a, b, hok, rfl, rfl⟩, ?_⟩
      refine (ih (i + 1) _ st1).2 ⟨ws, hrest, ?_⟩
      rw [e]
      simp [revCaps]

theorem mem_run_commandPattern (s kw : Str) (fs : List Field) (st1 : MState) :
    st1 ∈ Regex.run s (commandPattern kw fs) ⟨s, []⟩ ↔
      ∃ t vs, s = kw ++ t ∧ Fields fs t vs ∧ st1 = ⟨[], revCaps 1 vs⟩ := by
  simp only [commandPattern, Regex.cat]
  rw [Regex.run, List.mem_flatMap]
  constructor
  · rintro ⟨st2, h2, h3⟩
    have e2 : st2 = ⟨s, []⟩ := by
      simp [Regex.run] at h2
      exact h2
    rw [e2, Regex.run, List.mem_flatMap] at h3
    obtain ⟨st3, h3, h4⟩ := h3
    obtain ⟨t, ht, e3⟩ := (mem_run_lit s kw _ st3).1 h3
    obtain ⟨vs, hvs, e4⟩ := (mem_run_fieldAtoms s fs 1 st3 st1).1 h4
    rw [e3] at hvs e4
    exact ⟨t, vs, ht, hvs, by simpa using e4⟩
  · rintro ⟨t, vs, ht, hvs, e⟩
    refine ⟨⟨s, []⟩, by simp [Regex.run], ?_⟩
    rw [Regex.run, List.mem_flatMap]
    refine ⟨⟨t, []⟩, (mem_run_lit s kw _ _).2 ⟨t, ht, rfl⟩, ?_⟩
    exact (mem_run_fieldAtoms s fs 1 _ st1).2 ⟨vs, hvs, by simpa using e⟩

theorem run_commandPattern_of_lt (s kw : Str) (fs : List Field) (u : Str)
    (h : u.length < s.length) : Regex.run s (commandPattern kw fs) ⟨u, []⟩ = [] := by
  simp only [commandPattern, Regex.cat]
  rw [Regex.run]
  have : Regex.run s Regex.bol ⟨u, []⟩ = [] := by
    simp only [Regex.run]
    rw [if_neg (by omega)]
  rw [this]
  rfl

theorem go_commandPattern_of_lt (s kw : Str) (fs : List Field) :
    ∀ u : Str, u.length < s.length →
      regex_search.go s (commandPattern kw fs) u = none := by
  intro u
  induction u with
  | nil =>
    intro h
    rw [regex_search.go, run_commandPattern_of_lt s kw fs [] h]
    rfl
  | cons c t ih =>
    intro h
    rw [regex_search.go, run_commandPattern_of_lt s kw fs (c :: t) h]
    simp only [List.head?_nil]
    exact ih (by simp at h; omega)

theorem regex_search_commandPattern (s kw : Str) (fs : List Field) :
    regex_search s (commandPattern kw fs) =
      ((Regex.run s (commandPattern kw fs) ⟨s, []⟩).head?).map fun st => ⟨st.caps⟩ := by
  unfold regex_search
  cases s with
  | nil => rw [regex_search.go]
  | cons c t =>
    rw [regex_search.go]
    cases h : (Regex.run (c :: t) (commandPattern kw fs) ⟨c :: t, []⟩).head? with
    | some st => rfl
    | none =>
      simp only [Option.map_none']
      exact go_commandPattern_of_lt (c :: t) kw fs t (by simp)

theorem search_sound (s kw : Str) (fs : List Field) (m : Smatch)
    (h : regex_search s (commandPattern kw fs) = some m) :
    ∃ t vs, s = kw ++ t ∧ Fields fs t vs ∧ m = ⟨revCaps 1 vs⟩ := by
  rw [regex_search_commandPattern] at h
  cases hh : (Regex.run s (commandPattern kw fs) ⟨s, []⟩).head? with
  | none => rw [hh] at h; simp at h
  | some st =>
    rw [hh] at h
    simp only [Option.map_some', Option.some.injEq] at h
    have hmem : st ∈ Regex.run s (commandPattern kw fs) ⟨s, []⟩ := List.mem_of_mem_head? hh
    obtain ⟨t, vs, ht, hvs, e⟩ := (mem_run_commandPattern s kw fs st).1 hmem
    refine ⟨t, vs, ht, hvs, ?_⟩
    rw [← h, e]

theorem search_none (s kw : Str) (fs : List Field)
    (h : regex_search s (commandPattern kw fs) = none) :
    ∀ t vs, s = kw ++ t → ¬ Fields fs t vs := by
  intro t vs ht hvs
  rw [regex_search_commandPattern] at h
  have hmem := (mem_run_commandPattern s kw fs ⟨[], revCaps 1 vs⟩).2 ⟨t, vs, ht, hvs, rfl⟩
  cases hh : Regex.run s (commandPattern kw fs) ⟨s, []⟩ with
  | nil => rw [hh] at hmem; simp at hmem
  | cons x xs => rw [hh] at h; simp at h

theorem not_space_of_ok {f : Field} {a : Str} (hf : f ≠ Field.name) (h : f.ok a) :
    ' ' ∉ a := by
  cases f with
  | side =>
    rcases h with rfl | rfl <;> decide
  | num =>
    intro hmem
    have := h.2 ' ' hmem
    revert this
    decide
  | name => exact absurd rfl hf

theorem append_space_inj :
    ∀ (a a1 x y : Str), ' ' ∉ a → ' ' ∉ a1 → a ++ ' ' :: x = a1 ++ ' ' :: y →
      a = a1 ∧ x = y := by
  intro a
  induction a with
  | nil =>
    intro a1 x y _ h1 e
    cases a1 with
    | nil => simp at e; exact ⟨rfl, e⟩
    | cons c t =>
      simp only [List.nil_append, List.cons_append, List.cons.injEq] at e
      exact absurd (e.1 ▸ List.mem_cons_self _ _) h1
  | cons c t ih =>
    intro a1 x y h h1 e
    cases a1 with
    | nil =>
      simp only [List.nil_append, List.cons_append, List.cons.injEq] at e
      exact absurd (e.1 ▸ List.mem_cons_self _ _) h
    | cons c1 t1 =>
      simp only [List.cons_append, List.cons.injEq] at e
      obtain ⟨rfl, e⟩ := e
      obtain ⟨rfl, rfl⟩ := ih t1 x y (fun hm => h (List.mem_cons_of_mem _ hm))
        (fun hm => h1 (List.mem_cons_of_mem _ hm)) e
      exact ⟨rfl, rfl⟩

theorem fields_unique :
    ∀ (fs : List Field) (t : Str) (vs ws : List Str), tokensFirst fs →
      Fields fs t vs → Fields fs t ws → vs = ws := by
  intro fs
  induction fs with
  | nil =>
    intro t vs ws _ h1 h2
    rw [((fields_nil_iff _ _).1 h1).2, ((fields_nil_iff _ _).1 h2).2]
  | cons f fs ih =>
    intro t vs ws hwf h1 h2
    obtain ⟨a, b, vs1, hok, hrest, ht, rfl⟩ := (fields_cons_iff _ _ _ _).1 h1
    obtain ⟨a1, b1, ws1, hok1, hrest1, ht1, rfl⟩ := (fields_cons_iff _ _ _ _).1 h2
    rw [ht] at ht1
    simp only [List.cons.injEq, true_and] at ht1
    cases fs with
    | nil =>
      obtain ⟨rfl, rfl⟩ := (fields_nil_iff _ _).1 hrest
      obtain ⟨rfl, rfl⟩ := (fields_nil_iff _ _).1 hrest1
      simp only [List.append_nil] at ht1
      rw [ht1]
    | cons g gs =>
      obtain ⟨a2, b2, _, _, _, hb, -⟩ := (fields_cons_iff _ _ _ _).1 hrest
      obtain ⟨a3, b3, _, _, _, hb1, -⟩ := (fields_cons_iff _ _ _ _).1 hrest1
      have hne : f ≠ Field.name := hwf.1
      rw [hb, hb1] at ht1
      obtain ⟨rfl, e⟩ := append_space_inj a a1 _ _ (not_space_of_ok hne hok)
        (not_space_of_ok hne hok1) ht1
      have hbb : b = b1 := by rw [hb, hb1, e]
      subst hbb
      rw [ih b _ _ hwf.2 hrest hrest1]

theorem search_complete (kw : Str) (fs : List Field) (t : Str) (vs : List Str)
    (hwf : tokensFirst fs) (h : Fields fs t vs) :
    regex_search (kw ++ t) (commandPattern kw fs) = some ⟨revCaps 1 vs⟩ := by
  cases hs : regex_search (kw ++ t) (commandPattern kw fs) with
  | none => exact absurd h (search_none _ _ _ hs t vs rfl)
  | some m =>
    obtain ⟨t1, vs1, ht, hvs, e⟩ := search_sound _ _ _ _ hs
    have : t1 = t := (List.append_cancel_left ht).symm
    subst this
    rw [e, fields_unique fs t1 vs1 vs hwf hvs h]

theorem digit_toNat {c : Char} (h : isDigitChar c = true) : 48 ≤ c.toNat ∧ c.toNat ≤ 57 := by
  simp only [isDigitChar, Char.isDigit, Bool.and_eq_true, decide_eq_true_eq] at h
  obtain ⟨h1, h2⟩ := h
  constructor
  · exact h1
  · exact h2

theorem digit_ne {c d : Char} (h : isDigitChar c = true) (hd : d.toNat < 48 ∨ 57 < d.toNat) :
    c ≠ d := by
  rintro rfl
  have := digit_toNat h
  omega

theorem digit_not_space {c : Char} (h : isDigitChar c = true) : isspace c = false := by
  have h1 : c ≠ ' ' := digit_ne h (by decide)
  have h2 : c ≠ '\t' := digit_ne h (by decide)
  have h3 : c ≠ '\n' := digit_ne h (by decide)
  have h4 : c ≠ Char.ofNat 11 := digit_ne h (by decide)
  have h5 : c ≠ Char.ofNat 12 := digit_ne h (by decide)
  have h6 : c ≠ '\r' := digit_ne h (by decide)
  simp [isspace, h1, h2, h3, h4, h5, h6]

theorem takeWhile_all {α : Type} (p : α → Bool) :
    ∀ l : List α, (∀ x ∈ l, p x = true) → l.takeWhile p = l := by
  intro l
  induction l with
  | nil => intro _; rfl
  | cons x xs ih =>
    intro h
    rw [List.takeWhile_cons, h x (List.mem_cons_self _ _)]
    simp only [if_true]
    rw [ih (fun y hy => h y (List.mem_cons_of_mem _ hy))]

theorem stoi_digits (a : Str) (hne : a ≠ []) (hd : ∀ c ∈ a, isDigitChar c = true) :
    stoi a = if decimalValue a ≤ 2147483647 then Except.ok (decimalValue a : Int)
      else Except.error Exception.out_of_range := by
  cases a with
  | nil => exact absurd rfl hne
  | cons c t =>
    have hc := hd c (List.mem_cons_self _ _)
    have hs : (c :: t).dropWhile isspace = c :: t := by
      rw [List.dropWhile_cons, digit_not_space hc]
      rfl
    have hm : c ≠ '-' := digit_ne hc (by decide)
    have hp : c ≠ '+' := digit_ne hc (by decide)
    have htw := takeWhile_all isDigitChar (c :: t) hd
    have hsign : stoi.sign (c :: t) = (false, c :: t) := by
      unfold stoi.sign
      split
      · rename_i h; simp only [List.cons.injEq] at h; exact absurd h.1 hm
      · rename_i h; simp only [List.cons.injEq] at h; exact absurd h.1 hp
      · rfl
    unfold stoi
    simp only [hs, hsign, htw, List.isEmpty_cons, Bool.false_eq_true, if_false]
    · by_cases hv : decimalValue (c :: t) ≤ 2147483647
      · rw [if_pos hv, if_neg]
        omega
      · rw [if_neg hv, if_pos]
        omega

theorem toUInt64_natCast (n : Nat) (h : n ≤ 2147483647) : toUInt64 (n : Int) = n := by
  unfold toUInt64
  omega

theorem toUInt32_natCast (n : Nat) (h : n ≤ 2147483647) : toUInt32 (n : Int) = n := by
  unfold toUInt32
  omega

/-! ## The handlers on well-formed and on other lines -/

theorem pattern_eq (c : Command) : c.pattern = commandPattern c.keyword c.fields := by
  cases c <;> rfl

theorem tokensFirst_fields (c : Command) : tokensFirst c.fields := by
  cases c <;> simp [Command.fields, tokensFirst]

theorem stoi_num {a : Str} (h : Field.num.ok a) :
    stoi a = if decimalValue a ≤ 2147483647 then Except.ok (decimalValue a : Int)
      else Except.error Exception.out_of_range :=
  stoi_digits a h.1 h.2

/-- On a line that follows the usage of command `c` the handler issues the
operation the line stands for when every numeral fits `int`, and lets
`out_of_range` escape otherwise. -/
theorem handler_wf {σ : Type} (c : Command) (M : MarketManager σ) (market : σ) (t : Str)
    (vs : List Str) (h : Fields c.fields t vs) :
    ∃ op s market1, c.denote vs = some op ∧ M.reply op market = (some s, market1) ∧
      (c.inRange vs →
        c.handler M market (c.keyword ++ t) = Outcome.ofResult c.name op (s, market1)) ∧
      (¬ c.inRange vs →
        c.handler M market (c.keyword ++ t) = Outcome.throw market Exception.out_of_range) := by
  have hs := search_complete c.keyword _ t vs (tokensFirst_fields c) h
  rw [← pattern_eq] at hs
  cases c with
  | AddSymbol =>
    simp only [Command.fields] at h
    obtain ⟨a1, b1, w1, ok1, h1, -, rfl⟩ := (fields_cons_iff _ _ _ _).1 h
    obtain ⟨a2, b2, w2, ok2, h2, -, rfl⟩ := (fields_cons_iff _ _ _ _).1 h1
    obtain ⟨-, rfl⟩ := (fields_nil_iff _ _).1 h2
    refine ⟨_, _, _, rfl, rfl, ?_⟩
    have g1 : (⟨revCaps 1 [a1, a2]⟩ : Smatch).get 1 = a1 := rfl
    have g2 : (⟨revCaps 1 [a1, a2]⟩ : Smatch).get 2 = a2 := rfl
    simp only [Command.pattern] at hs
    simp only [Command.inRange, Command.fields, numerals, List.mem_cons, List.mem_singleton,
      List.not_mem_nil, or_false, forall_eq_or_imp, forall_eq]
    simp only [Command.handler, MatchingEngine.AddSymbol, hs, g1, g2, stoi_num ok1]
    by_cases r1 : decimalValue a1 ≤ 2147483647 <;>
    simp [r1, toUInt64_natCast, toUInt32_natCast, sideOf, marketOrder, limitOrder,
      Command.name]
  | DeleteSymbol =>
    simp only [Command.fields] at h
    obtain ⟨a1, b1, w1, ok1, h1, -, rfl⟩ := (fields_cons_iff _ _ _ _).1 h
    obtain ⟨-, rfl⟩ := (fields_nil_iff _ _).1 h1
    refine ⟨_, _, _, rfl, rfl, ?_⟩
    have g1 : (⟨revCaps 1 [a1]⟩ : Smatch).get 1 = a1 := rfl
    simp only [Command.pattern] at hs
    simp only [Command.inRange, Command.fields, numerals, List.mem_cons, List.mem_singleton,
      List.not_mem_nil, or_false, forall_eq_or_imp, forall_eq]
    simp only [Command.handler, MatchingEngine.DeleteSymbol, hs, g1, stoi_num ok1]
    by_cases r1 : decimalValue a1 ≤ 2147483647 <;>
    simp [r1, toUInt64_natCast, toUInt32_natCast, sideOf, marketOrder, limitOrder,
      Command.name]
  | AddOrderBook =>
    simp only [Command.fields] at h
    obtain ⟨a1, b1, w1, ok1, h1, -, rfl⟩ := (fields_cons_iff _ _ _ _).1 h
    obtain ⟨-, rfl⟩ := (fields_nil_iff _ _).1 h1
    refine ⟨_, _, _, rfl, rfl, ?_⟩
    have g1 : (⟨revCaps 1 [a1]⟩ : Smatch).get 1 = a1 := rfl
    simp only [Command.pattern] at hs
    simp only [Command.inRange, Command.fields, numerals, List.mem_cons, List.mem_singleton,
      List.not_mem_nil, or_false, forall_eq_or_imp, forall_eq]
    simp only [Command.handler, MatchingEngine.AddOrderBook, hs, g1, stoi_num ok1]
    by_cases r1 : decimalValue a1 ≤ 2147483647 <;>
    simp [r1, toUInt64_natCast, toUInt32_natCast, sideOf, marketOrder, limitOrder,
      Command.name]
  | DeleteOrderBook =>
    simp only [Command.fields] at h
    obtain ⟨a1, b1, w1, ok1, h1, -, rfl⟩ := (fields_cons_iff _ _ _ _).1 h
    obtain ⟨-, rfl⟩ := (fields_nil_iff _ _).1 h1
    refine ⟨_, _, _, rfl, rfl, ?_⟩
    have g1 : (⟨revCaps 1 [a1]⟩ : Smatch).get 1 = a1 := rfl
    simp only [Command.pattern] at hs
    simp only [Command.inRange, Command.fields, numerals, List.mem_cons, List.mem_singleton,
      List.not_mem_nil, or_false, forall_eq_or_imp, forall_eq]
    simp only [Command.handler, MatchingEngine.DeleteOrderBook, hs, g1, stoi_num ok1]
    by_cases r1 : decimalValue a1 ≤ 2147483647 <;>
    simp [r1, toUInt64_natCast, toUInt32_natCast, sideOf, marketOrder, limitOrder,
      Command.name]
  | AddMarketOrder =>
    simp only [Command.fields] at h
    obtain ⟨a1, b1, w1, ok1, h1, -, rfl⟩ := (fields_cons_iff _ _ _ _).1 h
    obtain ⟨a2, b2, w2, ok2, h2, -, rfl⟩ := (fields_cons_iff _ _ _ _).1 h1
    obtain ⟨a3, b3, w3, ok3, h3, -, rfl⟩ := (fields_cons_iff _ _ _ _).1 h2
    obtain ⟨a4, b4, w4, ok4, h4, -, rfl⟩ := (fields_cons_iff _ _ _ _).1 h3
    obtain ⟨-, rfl⟩ := (fields_nil_iff _ _).1 h4
    refine ⟨_, _, _, rfl, rfl, ?_⟩
    have g1 : (⟨revCaps 1 [a1, a2, a3, a4]⟩ : Smatch).get 1 = a1 := rfl
    have g2 : (⟨revCaps 1 [a1, a2, a3, a4]⟩ : Smatch).get 2 = a2 := rfl
    have g3 : (⟨revCaps 1 [a1, a2, a3, a4]⟩ : Smatch).get 3 = a3 := rfl
    have g4 : (⟨revCaps 1 [a1, a2, a3, a4]⟩ : Smatch).get 4 = a4 := rfl
    simp only [Command.pattern] at hs
    simp only [Command.inRange, Command.fields, numerals, List.mem_cons, List.mem_singleton,
      List.not_mem_nil, or_false, forall_eq_or_imp, forall_eq]
    simp only [Command.handler, MatchingEngine.AddMarketOrder, hs, g1, g2, g3, g4, stoi_num ok2, stoi_num ok3, stoi_num ok4]
    by_cases r2 : decimalValue a2 ≤ 2147483647 <;>
    by_cases r3 : decimalValue a3 ≤ 2147483647 <;>
    by_cases r4 : decimalValue a4 ≤ 2147483647 <;>
    rcases ok1 with rfl | rfl <;>
    simp [r2, r3, r4, toUInt64_natCast, toUInt32_natCast, sideOf, marketOrder, limitOrder,
      Command.name]
  | AddSlippageMarketOrder =>
    simp only [Command.fields] at h
    obtain ⟨a1, b1, w1, ok1, h1, -, rfl⟩ := (fields_cons_iff _ _ _ _).1 h
    obtain ⟨a2, b2, w2, ok2, h2, -, rfl⟩ := (fields_cons_iff _ _ _ _).1 h1
    obtain ⟨a3, b3, w3, ok3, h3, -, rfl⟩ := (fields_cons_iff _ _ _ _).1 h2
    obtain ⟨a4, b4, w4, ok4, h4, -, rfl⟩ := (fields_cons_iff _ _ _ _).1 h3
    obtain ⟨a5, b5, w5, ok5, h5, -, rfl⟩ := (fields_cons_iff _ _ _ _).1 h4
    obtain ⟨-, rfl⟩ := (fields_nil_iff _ _).1 h5
    refine ⟨_, _, _, rfl, rfl, ?_⟩
    have g1 : (⟨revCaps 1 [a1, a2, a3, a4, a5]⟩ : Smatch).get 1 = a1 := rfl
    have g2 : (⟨revCaps 1 [a1, a2, a3, a4, a5]⟩ : Smatch).get 2 = a2 := rfl
    have g3 : (⟨revCaps 1 [a1, a2, a3, a4, a5]⟩ : Smatch).get 3 = a3 := rfl
    have g4 : (⟨revCaps 1 [a1, a2, a3, a4, a5]⟩ : Smatch).get 4 = a4 := rfl
    have g5 : (⟨revCaps 1 [a1, a2, a3, a4, a5]⟩ : Smatch).get 5 = a5 := rfl
    simp only [Command.pattern] at hs
    simp only [Command.inRange, Command.fields, numerals, List.mem_cons, List.mem_singleton,
      List.not_mem_nil, or_false, forall_eq_or_imp, forall_eq]
    simp only [Command.handler, MatchingEngine.AddSlippageMarketOrder, hs, g1, g2, g3, g4, g5, stoi_num ok2, stoi_num ok3, stoi_num ok4, stoi_num ok5]
    by_cases r2 : decimalValue a2 ≤ 2147483647 <;>
    by_cases r3 : decimalValue a3 ≤ 2147483647 <;>
    by_cases r4 : decimalValue a4 ≤ 2147483647 <;>
    by_cases r5 : decimalValue a5 ≤ 2147483647 <;>
    rcases ok1 with rfl | rfl <;>
    simp [r2, r3, r4, r5, toUInt64_natCast, toUInt32_natCast, sideOf, marketOrder, limitOrder,
      Command.name]
  | AddLimitOrder =>
    simp only [Command.fields] at h
    obtain ⟨a1, b1, w1, ok1, h1, -, rfl⟩ := (fields_cons_iff _ _ _ _).1 h
    obtain ⟨a2, b2, w2, ok2, h2, -, rfl⟩ := (fields_cons_iff _ _ _ _).1 h1
    obtain ⟨a3, b3, w3, ok3, h3, -, rfl⟩ := (fields_cons_iff _ _ _ _).1 h2
    obtain ⟨a4, b4, w4, ok4, h4, -, rfl⟩ := (fields_cons_iff _ _ _ _).1 h3
    obtain ⟨a5, b5, w5, ok5, h5, -, rfl⟩ := (fields_cons_iff _ _ _ _).1 h4
    obtain ⟨-, rfl⟩ := (fields_nil_iff _ _).1 h5
    refine ⟨_, _, _, rfl, rfl, ?_⟩
    have g1 : (⟨revCaps 1 [a1, a2, a3, a4, a5]⟩ : Smatch).get 1 = a1 := rfl
    have g2 : (⟨revCaps 1 [a1, a2, a3, a4, a5]⟩ : Smatch).get 2 = a2 := rfl
    have g3 : (⟨revCaps 1 [a1, a2, a3, a4, a5]⟩ : Smatch).get 3 = a3 := rfl
    have g4 : (⟨revCaps 1 [a1, a2, a3, a4, a5]⟩ : Smatch).get 4 = a4 := rfl
    have g5 : (⟨revCaps 1 [a1, a2, a3, a4, a5]⟩ : Smatch).get 5 = a5 := rfl
    simp only [Command.pattern] at hs
    simp only [Command.inRange, Command.fields, numerals, List.mem_cons, List.mem_singleton,
      List.not_mem_nil, or_false, forall_eq_or_imp, forall_eq]
    simp only [Command.handler, MatchingEngine.AddLimitOrder, hs, g1, g2, g3, g4, g5, stoi_num ok2, stoi_num ok3, stoi_num ok4, stoi_num ok5]
    by_cases r2 : decimalValue a2 ≤ 2147483647 <;>
    by_cases r3 : decimalValue a3 ≤ 2147483647 <;>
    by_cases r4 : decimalValue a4 ≤ 2147483647 <;>
    by_cases r5 : decimalValue a5 ≤ 2147483647 <;>
    rcases ok1 with rfl | rfl <;>
    simp [r2, r3, r4, r5, toUInt64_natCast, toUInt32_natCast, sideOf, marketOrder, limitOrder,
      Command.name]
  | AddAONLimitOrder =>
    simp only [Command.fields] at h
    obtain ⟨a1, b1, w1, ok1, h1, -, rfl⟩ := (fields_cons_iff _ _ _ _).1 h
    obtain ⟨a2, b2, w2, ok2, h2, -, rfl⟩ := (fields_cons_iff _ _ _ _).1 h1
    obtain ⟨a3, b3, w3, ok3, h3, -, rfl⟩ := (fields_cons_iff _ _ _ _).1 h2
    obtain ⟨a4, b4, w4, ok4, h4, -, rfl⟩ := (fields_cons_iff _ _ _ _).1 h3
    obtain ⟨a5, b5, w5, ok5, h5, -, rfl⟩ := (fields_cons_iff _ _ _ _).1 h4
    obtain ⟨-, rfl⟩ := (fields_nil_iff _ _).1 h5
    refine ⟨_, _, _, rfl, rfl, ?_⟩
    have g1 : (⟨revCaps 1 [a1, a2, a3, a4, a5]⟩ : Smatch).get 1 = a1 := rfl
    have g2 : (⟨revCaps 1 [a1, a2, a3, a4, a5]⟩ : Smatch).get 2 = a2 := rfl
    have g3 : (⟨revCaps 1 [a1, a2, a3, a4, a5]⟩ : Smatch).get 3 = a3 := rfl
    have g4 : (⟨revCaps 1 [a1, a2, a3, a4, a5]⟩ : Smatch).get 4 = a4 := rfl
    have g5 : (⟨revCaps 1 [a1, a2, a3, a4, a5]⟩ : Smatch).get 5 = a5 := rfl
    simp only [Command.pattern] at hs
    simp only [Command.inRange, Command.fields, numerals, List.mem_cons, List.mem_singleton,
      List.not_mem_nil, or_false, forall_eq_or_imp, forall_eq]
    simp only [Command.handler, MatchingEngine.AddAONLimitOrder, hs, g1, g2, g3, g4, g5, stoi_num ok2, stoi_num ok3, stoi_num ok4, stoi_num ok5]
    by_cases r2 : decimalValue a2 ≤ 2147483647 <;>
    by_cases r3 : decimalValue a3 ≤ 2147483647 <;>
    by_cases r4 : decimalValue a4 ≤ 2147483647 <;>
    by_cases r5 : decimalValue a5 ≤ 2147483647 <;>
    rcases ok1 with rfl | rfl <;>
    simp [r2, r3, r4, r5, toUInt64_natCast, toUInt32_natCast, sideOf, marketOrder, limitOrder,
      Command.name]
  | ReduceLimitOrder =>
    simp only [Command.fields] at h
    obtain ⟨a1, b1, w1, ok1, h1, -, rfl⟩ := (fields_cons_iff _ _ _ _).1 h
    obtain ⟨a2, b2, w2, ok2, h2, -, rfl⟩ := (fields_cons_iff _ _ _ _).1 h1
    obtain ⟨-, rfl⟩ := (fields_nil_iff _ _).1 h2
    refine ⟨_, _, _, rfl, rfl, ?_⟩
    have g1 : (⟨revCaps 1 [a1, a2]⟩ : Smatch).get 1 = a1 := rfl
    have g2 : (⟨revCaps 1 [a1, a2]⟩ : Smatch).get 2 = a2 := rfl
    simp only [Command.pattern] at hs
    simp only [Command.inRange, Command.fields, numerals, List.mem_cons, List.mem_singleton,
      List.not_mem_nil, or_false, forall_eq_or_imp, forall_eq]
    simp only [Command.handler, MatchingEngine.ReduceLimitOrder, hs, g1, g2, stoi_num ok1, stoi_num ok2]
    by_cases r1 : decimalValue a1 ≤ 2147483647 <;>
    by_cases r2 : decimalValue a2 ≤ 2147483647 <;>
    simp [r1, r2, toUInt64_natCast, toUInt32_natCast, sideOf, marketOrder, limitOrder,
      Command.name]
  | ModifyLimitOrder =>
    simp only [Command.fields] at h
    obtain ⟨a1, b1, w1, ok1, h1, -, rfl⟩ := (fields_cons_iff _ _ _ _).1 h
    obtain ⟨a2, b2, w2, ok2, h2, -, rfl⟩ := (fields_cons_iff _ _ _ _).1 h1
    obtain ⟨a3, b3, w3, ok3, h3, -, rfl⟩ := (fields_cons_iff _ _ _ _).1 h2
    obtain ⟨-, rfl⟩ := (fields_nil_iff _ _).1 h3
    refine ⟨_, _, _, rfl, rfl, ?_⟩
    have g1 : (⟨revCaps 1 [a1, a2, a3]⟩ : Smatch).get 1 = a1 := rfl
    have g2 : (⟨revCaps 1 [a1, a2, a3]⟩ : Smatch).get 2 = a2 := rfl
    have g3 : (⟨revCaps 1 [a1, a2, a3]⟩ : Smatch).get 3 = a3 := rfl
    simp only [Command.pattern] at hs
    simp only [Command.inRange, Command.fields, numerals, List.mem_cons, List.mem_singleton,
      List.not_mem_nil, or_false, forall_eq_or_imp, forall_eq]
    simp only [Command.handler, MatchingEngine.ModifyLimitOrder, hs, g1, g2, g3, stoi_num ok1, stoi_num ok2, stoi_num ok3]
    by_cases r1 : decimalValue a1 ≤ 2147483647 <;>
    by_cases r2 : decimalValue a2 ≤ 2147483647 <;>
    by_cases r3 : decimalValue a3 ≤ 2147483647 <;>
    simp [r1, r2, r3, toUInt64_natCast, toUInt32_natCast, sideOf, marketOrder, limitOrder,
      Command.name]
  | ReplaceLimitOrder =>
    simp only [Command.fields] at h
    obtain ⟨a1, b1, w1, ok1, h1, -, rfl⟩ := (fields_cons_iff _ _ _ _).1 h
    obtain ⟨a2, b2, w2, ok2, h2, -, rfl⟩ := (fields_cons_iff _ _ _ _).1 h1
    obtain ⟨a3, b3, w3, ok3, h3, -, rfl⟩ := (fields_cons_iff _ _ _ _).1 h2
    obtain ⟨a4, b4, w4, ok4, h4, -, rfl⟩ := (fields_cons_iff _ _ _ _).1 h3
    obtain ⟨-, rfl⟩ := (fields_nil_iff _ _).1 h4
    refine ⟨_, _, _, rfl, rfl, ?_⟩
    have g1 : (⟨revCaps 1 [a1, a2, a3, a4]⟩ : Smatch).get 1 = a1 := rfl
    have g2 : (⟨revCaps 1 [a1, a2, a3, a4]⟩ : Smatch).get 2 = a2 := rfl
    have g3 : (⟨revCaps 1 [a1, a2, a3, a4]⟩ : Smatch).get 3 = a3 := rfl
    have g4 : (⟨revCaps 1 [a1, a2, a3, a4]⟩ : Smatch).get 4 = a4 := rfl
    simp only [Command.pattern] at hs
    simp only [Command.inRange, Command.fields, numerals, List.mem_cons, List.mem_singleton,
      List.not_mem_nil, or_false, forall_eq_or_imp, forall_eq]
    simp only [Command.handler, MatchingEngine.ReplaceLimitOrder, hs, g1, g2, g3, g4, stoi_num ok1, stoi_num ok2, stoi_num ok3, stoi_num ok4]
    by_cases r1 : decimalValue a1 ≤ 2147483647 <;>
    by_cases r2 : decimalValue a2 ≤ 2147483647 <;>
    by_cases r3 : decimalValue a3 ≤ 2147483647 <;>
    by_cases r4 : decimalValue a4 ≤ 2147483647 <;>
    simp [r1, r2, r3, r4, toUInt64_natCast, toUInt32_natCast, sideOf, marketOrder, limitOrder,
      Command.name]
  | DeleteOrder =>
    simp only [Command.fields] at h
    obtain ⟨a1, b1, w1, ok1, h1, -, rfl⟩ := (fields_cons_iff _ _ _ _).1 h
    obtain ⟨-, rfl⟩ := (fields_nil_iff _ _).1 h1
    refine ⟨_, _, _, rfl, rfl, ?_⟩
    have g1 : (⟨revCaps 1 [a1]⟩ : Smatch).get 1 = a1 := rfl
    simp only [Command.pattern] at hs
    simp only [Command.inRange, Command.fields, numerals, List.mem_cons, List.mem_singleton,
      List.not_mem_nil, or_false, forall_eq_or_imp, forall_eq]
    simp only [Command.handler, MatchingEngine.DeleteOrder, hs, g1, stoi_num ok1]
    by_cases r1 : decimalValue a1 ≤ 2147483647 <;>
    simp [r1, toUInt64_natCast, toUInt32_natCast, sideOf, marketOrder, limitOrder,
      Command.name]

/-- On a line that does not follow the usage of command `c` the handler only
reports the invalid command. -/
theorem handler_not {σ : Type} (c : Command) (M : MarketManager σ) (market : σ) (line : Str)
    (h : ∀ t vs, line = c.keyword ++ t → ¬ Fields c.fields t vs) :
    c.handler M market line = Outcome.invalid market c.name line := by
  have hs : regex_search line c.pattern = none := by
    cases hh : regex_search line c.pattern with
    | none => rfl
    | some m =>
      rw [pattern_eq] at hh
      obtain ⟨t, vs, ht, hvs, -⟩ := search_sound _ _ _ _ hh
      exact absurd hvs (h t vs ht)
  cases c <;> simp only [Command.pattern] at hs <;>
    simp only [Command.handler, MatchingEngine.AddSymbol, MatchingEngine.DeleteSymbol,
      MatchingEngine.AddOrderBook, MatchingEngine.DeleteOrderBook,
      MatchingEngine.AddMarketOrder, MatchingEngine.AddSlippageMarketOrder,
      MatchingEngine.AddLimitOrder, MatchingEngine.AddAONLimitOrder,
      MatchingEngine.ReduceLimitOrder, MatchingEngine.ModifyLimitOrder,
      MatchingEngine.ReplaceLimitOrder, MatchingEngine.DeleteOrder, hs, Command.name]

theorem handler_cases {σ : Type} (c : Command) (M : MarketManager σ) (market : σ)
    (line : Str) :
    ((∀ vs, ¬ c.usage line vs) ∧ c.handler M market line = Outcome.invalid market c.name line) ∨
    (∃ vs op s market1, c.usage line vs ∧ c.denote vs = some op ∧
      M.reply op market = (some s, market1) ∧
      ((c.inRange vs ∧ c.handler M market line = Outcome.ofResult c.name op (s, market1)) ∨
       (¬ c.inRange vs ∧
          c.handler M market line = Outcome.throw market Exception.out_of_range))) := by
  by_cases hu : ∃ vs, c.usage line vs
  · right
    obtain ⟨vs, t, rfl, hvs⟩ := hu
    obtain ⟨op, s, market1, hd, hr, h1, h2⟩ := handler_wf c M market t vs hvs
    refine ⟨vs, op, s, market1, ⟨t, rfl, hvs⟩, hd, hr, ?_⟩
    by_cases hin : c.inRange vs
    · exact Or.inl ⟨hin, h1 hin⟩
    · exact Or.inr ⟨hin, h2 hin⟩
  · left
    have hu1 : ∀ vs, ¬ c.usage line vs := fun vs h => hu ⟨vs, h⟩
    refine ⟨hu1, handler_not c M market line ?_⟩
    intro t vs ht hvs
    exact hu1 vs ⟨t, ht, hvs⟩

theorem processLine_dispatch {σ : Type} (M : MarketManager σ) (market : σ) (line : Str) :
    Dispatch M market line (processLine M market line) := by
  unfold processLine
  by_cases h1 : line = "help".toList
  · rw [if_pos h1]; exact Dispatch.help h1
  rw [if_neg h1]
  by_cases h2 : line = "exit".toList ∨ line = "quit".toList
  · rw [if_pos h2]; exact Dispatch.exit h2
  rw [if_neg h2]
  by_cases h3 : find line "#".toList = some 0 ∨ line = "".toList
  · rw [if_pos h3]; exact Dispatch.skip h3
  rw [if_neg h3]
  by_cases h4 : line = "enable matching".toList
  · rw [if_pos h4]; exact Dispatch.enable h4
  rw [if_neg h4]
  by_cases h5 : line = "disable matching".toList
  · rw [if_pos h5]; exact Dispatch.disable h5
  rw [if_neg h5]
  by_cases c1 : find line "add symbol".toList ≠ none
  · rw [if_pos c1]; exact Dispatch.command Command.AddSymbol c1
  rw [if_neg c1]
  by_cases c2 : find line "delete symbol".toList ≠ none
  · rw [if_pos c2]; exact Dispatch.command Command.DeleteSymbol c2
  rw [if_neg c2]
  by_cases c3 : find line "add book".toList ≠ none
  · rw [if_pos c3]; exact Dispatch.command Command.AddOrderBook c3
  rw [if_neg c3]
  by_cases c4 : find line "delete book".toList ≠ none
  · rw [if_pos c4]; exact Dispatch.command Command.DeleteOrderBook c4
  rw [if_neg c4]
  by_cases c5 : find line "add market".toList ≠ none
  · rw [if_pos c5]; exact Dispatch.command Command.AddMarketOrder c5
  rw [if_neg c5]
  by_cases c6 : find line "add slippage market".toList ≠ none
  · rw [if_pos c6]; exact Dispatch.command Command.AddSlippageMarketOrder c6
  rw [if_neg c6]
  by_cases c7 : find line "add limit".toList ≠ none
  · rw [if_pos c7]; exact Dispatch.command Command.AddLimitOrder c7
  rw [if_neg c7]
  by_cases c8 : find line "add aon limit".toList ≠ none
  · rw [if_pos c8]; exact Dispatch.command Command.AddAONLimitOrder c8
  rw [if_neg c8]
  by_cases c9 : find line "reduce limit".toList ≠ none
  · rw [if_pos c9]; exact Dispatch.command Command.ReduceLimitOrder c9
  rw [if_neg c9]
  by_cases c10 : find line "modify limit".toList ≠ none
  · rw [if_pos c10]; exact Dispatch.command Command.ModifyLimitOrder c10
  rw [if_neg c10]
  by_cases c11 : find line "replace limit".toList ≠ none
  · rw [if_pos c11]; exact Dispatch.command Command.ReplaceLimitOrder c11
  rw [if_neg c11]
  by_cases c12 : find line "delete order".toList ≠ none
  · rw [if_pos c12]; exact Dispatch.command Command.DeleteOrder c12
  rw [if_neg c12]
  exact Dispatch.unknown

/-! ## Lemmas on `find` -/

theorem agree_of_isPrefixOf :
    ∀ (pat a b : Str), pat.isPrefixOf (a ++ b) = true → agree pat a = true := by
  intro pat
  induction pat with
  | nil => intro a b _; cases a <;> rfl
  | cons p ps ih =>
    intro a b h
    cases a with
    | nil => rfl
    | cons c cs =>
      simp only [List.cons_append, List.isPrefixOf, Bool.and_eq_true] at h
      simp only [agree, Bool.and_eq_true]
      exact ⟨h.1, ih cs b h.2⟩

theorem findFrom_none_of_head (p : Char) (ps : Str) :
    ∀ (b : Str) (i : Nat), (∀ x ∈ b, x ≠ p) → findFrom (p :: ps) b i = none := by
  intro b
  induction b with
  | nil => intro i _; rfl
  | cons c cs ih =>
    intro i h
    have hc : c ≠ p := h c (List.mem_cons_self _ _)
    have hpre : (p :: ps).isPrefixOf (c :: cs) = false := by
      simp only [List.isPrefixOf, Bool.and_eq_false_imp, beq_iff_eq]
      intro e; exact absurd e.symm hc
    rw [findFrom, hpre]
    exact ih (i + 1) (fun x hx => h x (List.mem_cons_of_mem _ hx))

theorem findFrom_none_of_noOverlap (p : Char) (ps : Str) :
    ∀ (a b : Str) (i : Nat), noOverlap (p :: ps) a = true → (∀ x ∈ b, x ≠ p) →
      findFrom (p :: ps) (a ++ b) i = none := by
  intro a
  induction a with
  | nil => intro b i _ h; exact findFrom_none_of_head p ps b i h
  | cons c cs ih =>
    intro b i hno h
    simp only [noOverlap, Bool.and_eq_true, Bool.not_eq_true'] at hno
    have hpre : (p :: ps).isPrefixOf (c :: cs ++ b) = false := by
      cases hh : (p :: ps).isPrefixOf (c :: cs ++ b) with
      | false => rfl
      | true =>
        have := agree_of_isPrefixOf (p :: ps) (c :: cs) b hh
        rw [this] at hno
        exact absurd hno.1 (by decide)
    rw [List.cons_append, findFrom]
    rw [List.cons_append] at hpre
    rw [hpre]
    exact ih b (i + 1) hno.2 h

theorem find_none_of_noOverlap (p : Char) (ps a b : Str)
    (hno : noOverlap (p :: ps) a = true) (h : ∀ x ∈ b, x ≠ p) :
    find (a ++ b) (p :: ps) = none :=
  findFrom_none_of_noOverlap p ps a b 0 hno h

theorem findFrom_ge (pat : Str) :
    ∀ (s : Str) (i k : Nat), findFrom pat s i = some k → i ≤ k := by
  intro s
  induction s with
  | nil =>
    intro i k h
    simp only [findFrom] at h
    split_ifs at h
    simp only [Option.some.injEq] at h
    omega
  | cons c cs ih =>
    intro i k h
    rw [findFrom] at h
    split_ifs at h
    · simp only [Option.some.injEq] at h; omega
    · have := ih (i + 1) k h; omega

theorem find_zero {s pat : Str} (h : find s pat = some 0) : pat.isPrefixOf s = true := by
  unfold find at h
  cases s with
  | nil =>
    simp only [findFrom] at h
    split_ifs at h with hp
    exact hp
  | cons c cs =>
    rw [findFrom] at h
    split_ifs at h with hp
    · exact hp
    · have := findFrom_ge pat cs 1 0 h; omega

theorem find_append_self (kw t : Str) : find (kw ++ t) kw ≠ none := by
  have hp : kw.isPrefixOf (kw ++ t) = true := (isPrefixOf_eq_true_iff _ _).2 ⟨t, rfl⟩
  unfold find
  cases h : kw ++ t with
  | nil =>
    rw [h] at hp
    rw [findFrom, if_pos hp]
    simp
  | cons c cs =>
    rw [h] at hp
    rw [findFrom, if_pos hp]
    simp

/-! ## Routing of well-formed lines -/

theorem fields_notKeywordInitial :
    ∀ (fs : List Field) (t : Str) (vs : List Str), Fields fs t vs → Field.name ∉ fs →
      ∀ x ∈ t, notKeywordInitial x = true := by
  intro fs t vs h
  induction h with
  | nil => intro _ x hx; simp at hx
  | @cons f fs a b vs hok _ ih =>
    intro hn x hx
    have hf : f ≠ Field.name := fun e => hn (e ▸ List.mem_cons_self _ _)
    have hfs : Field.name ∉ fs := fun e => hn (List.mem_cons_of_mem _ e)
    rcases List.mem_cons.1 hx with rfl | hx
    · decide
    rcases List.mem_append.1 hx with hx | hx
    · cases f with
      | side =>
        have hb : ∀ y ∈ "buy".toList, notKeywordInitial y = true := by decide
        have hs : ∀ y ∈ "sell".toList, notKeywordInitial y = true := by decide
        rcases hok with rfl | rfl
        · exact hb x hx
        · exact hs x hx
      | num =>
        have hd := hok.2 x hx
        have h1 : x ≠ 'a' := digit_ne hd (by decide)
        have h2 : x ≠ 'd' := digit_ne hd (by decide)
        have h3 : x ≠ 'r' := digit_ne hd (by decide)
        have h4 : x ≠ 'm' := digit_ne hd (by decide)
        simp [notKeywordInitial, h1, h2, h3, h4]
      | name => exact absurd rfl hf
    · exact ih hfs x hx

theorem ne_of_notKeywordInitial {x p : Char} (hp : notKeywordInitial p = false)
    (hx : notKeywordInitial x = true) : x ≠ p := by
  rintro rfl
  rw [hx] at hp
  exact absurd hp (by decide)

/-- On a line that follows the usage of `c`, no keyword tested before the
keyword of `c` occurs. -/
theorem find_earlier_none (c d : Command) (t : Str) (vs : List Str)
    (h : Fields c.fields t vs) (hlt : d.index < c.index) :
    find (c.keyword ++ t) d.keyword = none := by
  have hname : Field.name ∉ c.fields := by
    cases c <;> first | decide | exact absurd hlt (Nat.not_lt_zero _)
  have hsafe := fields_notKeywordInitial _ _ _ h hname
  obtain ⟨t1, rfl⟩ : ∃ t1, t = ' ' :: t1 := by
    obtain ⟨f, fs, hfs⟩ : ∃ f fs, c.fields = f :: fs := by cases c <;> exact ⟨_, _, rfl⟩
    rw [hfs] at h
    obtain ⟨a, b, ws, -, -, e, -⟩ := (fields_cons_iff _ _ _ _).1 h
    exact ⟨_, e⟩
  have hsafe1 : ∀ x ∈ t1, notKeywordInitial x = true :=
    fun x hx => hsafe x (List.mem_cons_of_mem _ hx)
  have hline : c.keyword ++ ' ' :: t1 = (c.keyword ++ [' ']) ++ t1 := by simp
  rw [hline]
  cases c <;> cases d <;>
    first
    | exact absurd hlt (by decide)
    | exact find_none_of_noOverlap _ _ _ t1 (by decide)
        (fun x hx => ne_of_notKeywordInitial (by decide) (hsafe1 x hx))

theorem take_two_keyword (c : Command) (t : Str) :
    (c.keyword ++ t).take 2 = c.keyword.take 2 := by
  cases c <;> rfl

theorem keyword_not_special (c : Command) (t : Str) :
    c.keyword ++ t ≠ "help".toList ∧
    ¬ (c.keyword ++ t = "exit".toList ∨ c.keyword ++ t = "quit".toList) ∧
    ¬ (find (c.keyword ++ t) "#".toList = some 0 ∨ c.keyword ++ t = "".toList) ∧
    c.keyword ++ t ≠ "enable matching".toList ∧
    c.keyword ++ t ≠ "disable matching".toList := by
  have key : ∀ s : Str, c.keyword.take 2 ≠ s.take 2 → c.keyword ++ t ≠ s := by
    intro s hs e
    apply hs
    rw [← take_two_keyword c t, e]
  have hash : ¬ find (c.keyword ++ t) "#".toList = some 0 := by
    intro h
    obtain ⟨b, hb⟩ := (isPrefixOf_eq_true_iff _ _).1 (find_zero h)
    have := congrArg (List.take 1) hb
    have h2 := congrArg (List.take 1) (take_two_keyword c t)
    simp only [List.take_take] at h2
    rw [show min 1 2 = 1 from rfl] at h2
    rw [h2, show List.take 1 ("#".toList ++ b) = ['#'] from rfl] at this
    revert this
    cases c <;> decide
  refine ⟨key _ ?_, ?_, ?_, key _ ?_, key _ ?_⟩
  · cases c <;> decide
  · rintro (e | e)
    · exact key _ (by cases c <;> decide) e
    · exact key _ (by cases c <;> decide) e
  · rintro (e | e)
    · exact hash e
    · exact key _ (by cases c <;> decide) e
  · cases c <;> decide
  · cases c <;> decide

/-- A line that starts with the keyword of `c` and contains no keyword that
`main` tests earlier is passed to the handler of `c`. -/
theorem processLine_command {σ : Type} (M : MarketManager σ) (market : σ) (c : Command)
    (t : Str) (hearlier : ∀ d : Command, d.index < c.index → find (c.keyword ++ t) d.keyword = none) :
    processLine M market (c.keyword ++ t) =
      LineResult.ofOutcome (c.handler M market (c.keyword ++ t)) := by
  obtain ⟨s1, s2, s3, s4, s5⟩ := keyword_not_special c t
  have hfound := find_append_self c.keyword t
  unfold processLine
  rw [if_neg s1, if_neg s2, if_neg s3, if_neg s4, if_neg s5]
  cases c with
  | AddSymbol =>
    rw [if_pos (show find (Command.AddSymbol.keyword ++ t) "add symbol".toList ≠ none from hfound)]
    rfl
  | DeleteSymbol =>
    rw [if_neg (show ¬ (find (Command.DeleteSymbol.keyword ++ t) "add symbol".toList ≠ none) from
      fun hh => hh (hearlier Command.AddSymbol (by decide)))]
    rw [if_pos (show find (Command.DeleteSymbol.keyword ++ t) "delete symbol".toList ≠ none from hfound)]
    rfl
  | AddOrderBook =>
    rw [if_neg (show ¬ (find (Command.AddOrderBook.keyword ++ t) "add symbol".toList ≠ none) from
      fun hh => hh (hearlier Command.AddSymbol (by decide)))]
    rw [if_neg (show ¬ (find (Command.AddOrderBook.keyword ++ t) "delete symbol".toList ≠ none) from
      fun hh => hh (hearlier Command.DeleteSymbol (by decide)))]
    rw [if_pos (show find (Command.AddOrderBook.keyword ++ t) "add book".toList ≠ none from hfound)]
    rfl
  | DeleteOrderBook =>
    rw [if_neg (show ¬ (find (Command.DeleteOrderBook.keyword ++ t) "add symbol".toList ≠ none) from
      fun hh => hh (hearlier Command.AddSymbol (by decide)))]
    rw [if_neg (show ¬ (find (Command.DeleteOrderBook.keyword ++ t) "delete symbol".toList ≠ none) from
      fun hh => hh (hearlier Command.DeleteSymbol (by decide)))]
    rw [if_neg (show ¬ (find (Command.DeleteOrderBook.keyword ++ t) "add book".toList ≠ none) from
      fun hh => hh (hearlier Command.AddOrderBook (by decide)))]
    rw [if_pos (show find (Command.DeleteOrderBook.keyword ++ t) "delete book".toList ≠ none from hfound)]
    rfl
  | AddMarketOrder =>
    rw [if_neg (show ¬ (find (Command.AddMarketOrder.keyword ++ t) "add symbol".toList ≠ none) from
      fun hh => hh (hearlier Command.AddSymbol (by decide)))]
    rw [if_neg (show ¬ (find (Command.AddMarketOrder.keyword ++ t) "delete symbol".toList ≠ none) from
      fun hh => hh (hearlier Command.DeleteSymbol (by decide)))]
    rw [if_neg (show ¬ (find (Command.AddMarketOrder.keyword ++ t) "add book".toList ≠ none) from
      fun hh => hh (hearlier Command.AddOrderBook (by decide)))]
    rw [if_neg (show ¬ (find (Command.AddMarketOrder.keyword ++ t) "delete book".toList ≠ none) from
      fun hh => hh (hearlier Command.DeleteOrderBook (by decide)))]
    rw [if_pos (show find (Command.AddMarketOrder.keyword ++ t) "add market".toList ≠ none from hfound)]
    rfl
  | AddSlippageMarketOrder =>
    rw [if_neg (show ¬ (find (Command.AddSlippageMarketOrder.keyword ++ t) "add symbol".toList ≠ none) from
      fun hh => hh (hearlier Command.AddSymbol (by decide)))]
    rw [if_neg (show ¬ (find (Command.AddSlippageMarketOrder.keyword ++ t) "delete symbol".toList ≠ none) from
      fun hh => hh (hearlier Command.DeleteSymbol (by decide)))]
    rw [if_neg (show ¬ (find (Command.AddSlippageMarketOrder.keyword ++ t) "add book".toList ≠ none) from
      fun hh => hh (hearlier Command.AddOrderBook (by decide)))]
    rw [if_neg (show ¬ (find (Command.AddSlippageMarketOrder.keyword ++ t) "delete book".toList ≠ none) from
      fun hh => hh (hearlier Command.DeleteOrderBook (by decide)))]
    rw [if_neg (show ¬ (find (Command.AddSlippageMarketOrder.keyword ++ t) "add market".toList ≠ none) from
      fun hh => hh (hearlier Command.AddMarketOrder (by decide)))]
    rw [if_pos (show find (Command.AddSlippageMarketOrder.keyword ++ t) "add slippage market".toList ≠ none from hfound)]
    rfl
  | AddLimitOrder =>
    rw [if_neg (show ¬ (find (Command.AddLimitOrder.keyword ++ t) "add symbol".toList ≠ none) from
      fun hh => hh (hearlier Command.AddSymbol (by decide)))]
    rw [if_neg (show ¬ (find (Command.AddLimitOrder.keyword ++ t) "delete symbol".toList ≠ none) from
      fun hh => hh (hearlier Command.DeleteSymbol (by decide)))]
    rw [if_neg (show ¬ (find (Command.AddLimitOrder.keyword ++ t) "add book".toList ≠ none) from
      fun hh => hh (hearlier Command.AddOrderBook (by decide)))]
    rw [if_neg (show ¬ (find (Command.AddLimitOrder.keyword ++ t) "delete book".toList ≠ none) from
      fun hh => hh (hearlier Command.DeleteOrderBook (by decide)))]
    rw [if_neg (show ¬ (find (Command.AddLimitOrder.keyword ++ t) "add market".toList ≠ none) from
      fun hh => hh (hearlier Command.AddMarketOrder (by decide)))]
    rw [if_neg (show ¬ (find (Command.AddLimitOrder.keyword ++ t) "add slippage market".toList ≠ none) from
      fun hh => hh (hearlier Command.AddSlippageMarketOrder (by decide)))]
    rw [if_pos (show find (Command.AddLimitOrder.keyword ++ t) "add limit".toList ≠ none from hfound)]
    rfl
  | AddAONLimitOrder =>
    rw [if_neg (show ¬ (find (Command.AddAONLimitOrder.keyword ++ t) "add symbol".toList ≠ none) from
      fun hh => hh (hearlier Command.AddSymbol (by decide)))]
    rw [if_neg (show ¬ (find (Command.AddAONLimitOrder.keyword ++ t) "delete symbol".toList ≠ none) from
      fun hh => hh (hearlier Command.DeleteSymbol (by decide)))]
    rw [if_neg (show ¬ (find (Command.AddAONLimitOrder.keyword ++ t) "add book".toList ≠ none) from
      fun hh => hh (hearlier Command.AddOrderBook (by decide)))]
    rw [if_neg (show ¬ (find (Command.AddAONLimitOrder.keyword ++ t) "delete book".toList ≠ none) from
      fun hh => hh (hearlier Command.DeleteOrderBook (by decide)))]
    rw [if_neg (show ¬ (find (Command.AddAONLimitOrder.keyword ++ t) "add market".toList ≠ none) from
      fun hh => hh (hearlier Command.AddMarketOrder (by decide)))]
    rw [if_neg (show ¬ (find (Command.AddAONLimitOrder.keyword ++ t) "add slippage market".toList ≠ none) from
      fun hh => hh (hearlier Command.AddSlippageMarketOrder (by decide)))]
    rw [if_neg (show ¬ (find (Command.AddAONLimitOrder.keyword ++ t) "add limit".toList ≠ none) from
      fun hh => hh (hearlier Command.AddLimitOrder (by decide)))]
    rw [if_pos (show find (Command.AddAONLimitOrder.keyword ++ t) "add aon limit".toList ≠ none from hfound)]
    rfl
  | ReduceLimitOrder =>
    rw [if_neg (show ¬ (find (Command.ReduceLimitOrder.keyword ++ t) "add symbol".toList ≠ none) from
      fun hh => hh (hearlier Command.AddSymbol (by decide)))]
    rw [if_neg (show ¬ (find (Command.ReduceLimitOrder.keyword ++ t) "delete symbol".toList ≠ none) from
      fun hh => hh (hearlier Command.DeleteSymbol (by decide)))]
    rw [if_neg (show ¬ (find (Command.ReduceLimitOrder.keyword ++ t) "add book".toList ≠ none) from
      fun hh => hh (hearlier Command.AddOrderBook (by decide)))]
    rw [if_neg (show ¬ (find (Command.ReduceLimitOrder.keyword ++ t) "delete book".toList ≠ none) from
      fun hh => hh (hearlier Command.DeleteOrderBook (by decide)))]
    rw [if_neg (show ¬ (find (Command.ReduceLimitOrder.keyword ++ t) "add market".toList ≠ none) from
      fun hh => hh (hearlier Command.AddMarketOrder (by decide)))]
    rw [if_neg (show ¬ (find (Command.ReduceLimitOrder.keyword ++ t) "add slippage market".toList ≠ none) from
      fun hh => hh (hearlier Command.AddSlippageMarketOrder (by decide)))]
    rw [if_neg (show ¬ (find (Command.ReduceLimitOrder.keyword ++ t) "add limit".toList ≠ none) from
      fun hh => hh (hearlier Command.AddLimitOrder (by decide)))]
    rw [if_neg (show ¬ (find (Command.ReduceLimitOrder.keyword ++ t) "add aon limit".toList ≠ none) from
      fun hh => hh (hearlier Command.AddAONLimitOrder (by decide)))]
    rw [if_pos (show find (Command.ReduceLimitOrder.keyword ++ t) "reduce limit".toList ≠ none from hfound)]
    rfl
  | ModifyLimitOrder =>
    rw [if_neg (show ¬ (find (Command.ModifyLimitOrder.keyword ++ t) "add symbol".toList ≠ none) from
      fun hh => hh (hearlier Command.AddSymbol (by decide)))]
    rw [if_neg (show ¬ (find (Command.ModifyLimitOrder.keyword ++ t) "delete symbol".toList ≠ none) from
      fun hh => hh (hearlier Command.DeleteSymbol (by decide)))]
    rw [if_neg (show ¬ (find (Command.ModifyLimitOrder.keyword ++ t) "add book".toList ≠ none) from
      fun hh => hh (hearlier Command.AddOrderBook (by decide)))]
    rw [if_neg (show ¬ (find (Command.ModifyLimitOrder.keyword ++ t) "delete book".toList ≠ none) from
      fun hh => hh (hearlier Command.DeleteOrderBook (by decide)))]
    rw [if_neg (show ¬ (find (Command.ModifyLimitOrder.keyword ++ t) "add market".toList ≠ none) from
      fun hh => hh (hearlier Command.AddMarketOrder (by decide)))]
    rw [if_neg (show ¬ (find (Command.ModifyLimitOrder.keyword ++ t) "add slippage market".toList ≠ none) from
      fun hh => hh (hearlier Command.AddSlippageMarketOrder (by decide)))]
    rw [if_neg (show ¬ (find (Command.ModifyLimitOrder.keyword ++ t) "add limit".toList ≠ none) from
      fun hh => hh (hearlier Command.AddLimitOrder (by decide)))]
    rw [if_neg (show ¬ (find (Command.ModifyLimitOrder.keyword ++ t) "add aon limit".toList ≠ none) from
      fun hh => hh (hearlier Command.AddAONLimitOrder (by decide)))]
    rw [if_neg (show ¬ (find (Command.ModifyLimitOrder.keyword ++ t) "reduce limit".toList ≠ none) from
      fun hh => hh (hearlier Command.ReduceLimitOrder (by decide)))]
    rw [if_pos (show find (Command.ModifyLimitOrder.keyword ++ t) "modify limit".toList ≠ none from hfound)]
    rfl
  | ReplaceLimitOrder =>
    rw [if_neg (show ¬ (find (Command.ReplaceLimitOrder.keyword ++ t) "add symbol".toList ≠ none) from
      fun hh => hh (hearlier Command.AddSymbol (by decide)))]
    rw [if_neg (show ¬ (find (Command.ReplaceLimitOrder.keyword ++ t) "delete symbol".toList ≠ none) from
      fun hh => hh (hearlier Command.DeleteSymbol (by decide)))]
    rw [if_neg (show ¬ (find (Command.ReplaceLimitOrder.keyword ++ t) "add book".toList ≠ none) from
      fun hh => hh (hearlier Command.AddOrderBook (by decide)))]
    rw [if_neg (show ¬ (find (Command.ReplaceLimitOrder.keyword ++ t) "delete book".toList ≠ none) from
      fun hh => hh (hearlier Command.DeleteOrderBook (by decide)))]
    rw [if_neg (show ¬ (find (Command.ReplaceLimitOrder.keyword ++ t) "add market".toList ≠ none) from
      fun hh => hh (hearlier Command.AddMarketOrder (by decide)))]
    rw [if_neg (show ¬ (find (Command.ReplaceLimitOrder.keyword ++ t) "add slippage market".toList ≠ none) from
      fun hh => hh (hearlier Command.AddSlippageMarketOrder (by decide)))]
    rw [if_neg (show ¬ (find (Command.ReplaceLimitOrder.keyword ++ t) "add limit".toList ≠ none) from
      fun hh => hh (hearlier Command.AddLimitOrder (by decide)))]
    rw [if_neg (show ¬ (find (Command.ReplaceLimitOrder.keyword ++ t) "add aon limit".toList ≠ none) from
      fun hh => hh (hearlier Command.AddAONLimitOrder (by decide)))]
    rw [if_neg (show ¬ (find (Command.ReplaceLimitOrder.keyword ++ t) "reduce limit".toList ≠ none) from
      fun hh => hh (hearlier Command.ReduceLimitOrder (by decide)))]
    rw [if_neg (show ¬ (find (Command.ReplaceLimitOrder.keyword ++ t) "modify limit".toList ≠ none) from
      fun hh => hh (hearlier Command.ModifyLimitOrder (by decide)))]
    rw [if_pos (show find (Command.ReplaceLimitOrder.keyword ++ t) "replace limit".toList ≠ none from hfound)]
    rfl
  | DeleteOrder =>
    rw [if_neg (show ¬ (find (Command.DeleteOrder.keyword ++ t) "add symbol".toList ≠ none) from
      fun hh => hh (hearlier Command.AddSymbol (by decide)))]
    rw [if_neg (show ¬ (find (Command.DeleteOrder.keyword ++ t) "delete symbol".toList ≠ none) from
      fun hh => hh (hearlier Command.DeleteSymbol (by decide)))]
    rw [if_neg (show ¬ (find (Command.DeleteOrder.keyword ++ t) "add book".toList ≠ none) from
      fun hh => hh (hearlier Command.AddOrderBook (by decide)))]
    rw [if_neg (show ¬ (find (Command.DeleteOrder.keyword ++ t) "delete book".toList ≠ none) from
      fun hh => hh (hearlier Command.DeleteOrderBook (by decide)))]
    rw [if_neg (show ¬ (find (Command.DeleteOrder.keyword ++ t) "add market".toList ≠ none) from
      fun hh => hh (hearlier Command.AddMarketOrder (by decide)))]
    rw [if_neg (show ¬ (find (Command.DeleteOrder.keyword ++ t) "add slippage market".toList ≠ none) from
      fun hh => hh (hearlier Command.AddSlippageMarketOrder (by decide)))]
    rw [if_neg (show ¬ (find (Command.DeleteOrder.keyword ++ t) "add limit".toList ≠ none) from
      fun hh => hh (hearlier Command.AddLimitOrder (by decide)))]
    rw [if_neg (show ¬ (find (Command.DeleteOrder.keyword ++ t) "add aon limit".toList ≠ none) from
      fun hh => hh (hearlier Command.AddAONLimitOrder (by decide)))]
    rw [if_neg (show ¬ (find (Command.DeleteOrder.keyword ++ t) "reduce limit".toList ≠ none) from
      fun hh => hh (hearlier Command.ReduceLimitOrder (by decide)))]
    rw [if_neg (show ¬ (find (Command.DeleteOrder.keyword ++ t) "modify limit".toList ≠ none) from
      fun hh => hh (hearlier Command.ModifyLimitOrder (by decide)))]
    rw [if_neg (show ¬ (find (Command.DeleteOrder.keyword ++ t) "replace limit".toList ≠ none) from
      fun hh => hh (hearlier Command.ReplaceLimitOrder (by decide)))]
    rw [if_pos (show find (Command.DeleteOrder.keyword ++ t) "delete order".toList ≠ none from hfound)]
    rfl

/-! ## Well-formed lines through `main` -/

/-- A line that follows the usage of `c` and whose numerals fit `int` makes
`main` issue exactly the operation the line stands for. -/
theorem processLine_wf {σ : Type} (M : MarketManager σ) (market : σ) (c : Command) (t : Str)
    (vs : List Str) (h : Fields c.fields t vs) (hr : c.inRange vs) :
    ∃ op s market1, c.denote vs = some op ∧ M.reply op market = (some s, market1) ∧
      processLine M market (c.keyword ++ t) =
        LineResult.ofOutcome (Outcome.ofResult c.name op (s, market1)) := by
  obtain ⟨op, s, market1, hd, hrep, hin, -⟩ := handler_wf c M market t vs h
  refine ⟨op, s, market1, hd, hrep, ?_⟩
  rw [processLine_command M market c t (fun d hd => find_earlier_none c d t vs h hd), hin hr]

theorem calls_of_wf {σ : Type} (M : MarketManager σ) (market : σ) (c : Command) (t : Str)
    (vs : List Str) (op : Op) (h : Fields c.fields t vs) (hr : c.inRange vs)
    (hd : c.denote vs = some op) :
    (processLine M market (c.keyword ++ t)).calls = [op] := by
  obtain ⟨op1, s, market1, hd1, -, e⟩ := processLine_wf M market c t vs h hr
  rw [hd] at hd1
  rw [e, Option.some.inj hd1]
  rfl

theorem sideOf_sideText (s : OrderSide) : sideOf (sideText s) = s := by
  cases s <;> rfl

theorem side_ok (s : OrderSide) : Field.side.ok (sideText s) := by
  cases s
  · exact Or.inl rfl
  · exact Or.inr rfl

/-- Claim C1: for every side and all decimal numerals `I`, `S`, `P`, `Q`, `L`
of value at most 2147483647, the lines `add market s I S Q`,
`add slippage market s I S Q L`, `add limit s I S P Q` and
`add aon limit s I S P Q` each make `main` issue exactly one engine
operation: `AddOrder` of the market order (without, resp. with slippage `L`)
or of the limit order (without, resp. with the All-Or-None flag) of that side
with id `I`, symbol `S`, price `P` and quantity `Q`. -/
theorem order_entry_commands {σ : Type} (M : MarketManager σ) (market : σ) (s : OrderSide)
    (I S P Q L : Str) (hI : Numeral I) (hS : Numeral S) (hP : Numeral P) (hQ : Numeral Q)
    (hL : Numeral L) (vI : FitsInt I) (vS : FitsInt S) (vP : FitsInt P) (vQ : FitsInt Q)
    (vL : FitsInt L) :
    (processLine M market ("add market".toList ++ spaced [sideText s, I, S, Q])).calls =
      [Op.AddOrder (marketOrder s (decimalValue I) (decimalValue S) (decimalValue Q) none)] ∧
    (processLine M market
        ("add slippage market".toList ++ spaced [sideText s, I, S, Q, L])).calls =
      [Op.AddOrder (marketOrder s (decimalValue I) (decimalValue S) (decimalValue Q)
        (some (decimalValue L)))] ∧
    (processLine M market ("add limit".toList ++ spaced [sideText s, I, S, P, Q])).calls =
      [Op.AddOrder (limitOrder s (decimalValue I) (decimalValue S) (decimalValue P)
        (decimalValue Q) false)] ∧
    (processLine M market ("add aon limit".toList ++ spaced [sideText s, I, S, P, Q])).calls =
      [Op.AddOrder (limitOrder s (decimalValue I) (decimalValue S) (decimalValue P)
        (decimalValue Q) true)] := by
  have hs := side_ok s
  refine ⟨?_, ?_, ?_, ?_⟩
  · refine calls_of_wf M market Command.AddMarketOrder _ [sideText s, I, S, Q] _
      (Fields.cons hs (Fields.cons hI (Fields.cons hS (Fields.cons hQ Fields.nil)))) ?_ ?_
    · intro a ha
      simp only [Command.fields, numerals, List.mem_cons, List.mem_singleton,
        List.not_mem_nil, or_false] at ha
      rcases ha with rfl | rfl | rfl <;> assumption
    · simp only [Command.denote, sideOf_sideText]
  · refine calls_of_wf M market Command.AddSlippageMarketOrder _ [sideText s, I, S, Q, L] _
      (Fields.cons hs (Fields.cons hI (Fields.cons hS (Fields.cons hQ
        (Fields.cons hL Fields.nil))))) ?_ ?_
    · intro a ha
      simp only [Command.fields, numerals, List.mem_cons, List.mem_singleton,
        List.not_mem_nil, or_false] at ha
      rcases ha with rfl | rfl | rfl | rfl <;> assumption
    · simp only [Command.denote, sideOf_sideText]
  · refine calls_of_wf M market Command.AddLimitOrder _ [sideText s, I, S, P, Q] _
      (Fields.cons hs (Fields.cons hI (Fields.cons hS (Fields.cons hP
        (Fields.cons hQ Fields.nil))))) ?_ ?_
    · intro a ha
      simp only [Command.fields, numerals, List.mem_cons, List.mem_singleton,
        List.not_mem_nil, or_false] at ha
      rcases ha with rfl | rfl | rfl | rfl <;> assumption
    · simp only [Command.denote, sideOf_sideText]
  · refine calls_of_wf M market Command.AddAONLimitOrder _ [sideText s, I, S, P, Q] _
      (Fields.cons hs (Fields.cons hI (Fields.cons hS (Fields.cons hP
        (Fields.cons hQ Fields.nil))))) ?_ ?_
    · intro a ha
      simp only [Command.fields, numerals, List.mem_cons, List.mem_singleton,
        List.not_mem_nil, or_false] at ha
      rcases ha with rfl | rfl | rfl | rfl <;> assumption
    · simp only [Command.denote, sideOf_sideText]

/-- Claim C1 at the lines `add market buy 7 3 100`, `add slippage market buy 7 3 100 5`,
`add limit buy 7 3 42 100` and `add aon limit buy 7 3 42 100`. -/
theorem order_entry_commands_witness :
    (Numeral "7".toList ∧ Numeral "3".toList ∧ Numeral "42".toList ∧ Numeral "100".toList ∧
      Numeral "5".toList ∧ FitsInt "7".toList ∧ FitsInt "3".toList ∧ FitsInt "42".toList ∧
      FitsInt "100".toList ∧ FitsInt "5".toList) ∧
    (processLine idleMarket () "add market buy 7 3 100".toList).calls =
      [Op.AddOrder (marketOrder OrderSide.BUY 7 3 100 none)] ∧
    (processLine idleMarket () "add slippage market buy 7 3 100 5".toList).calls =
      [Op.AddOrder (marketOrder OrderSide.BUY 7 3 100 (some 5))] ∧
    (processLine idleMarket () "add limit buy 7 3 42 100".toList).calls =
      [Op.AddOrder (limitOrder OrderSide.BUY 7 3 42 100 false)] ∧
    (processLine idleMarket () "add aon limit buy 7 3 42 100".toList).calls =
      [Op.AddOrder (limitOrder OrderSide.BUY 7 3 42 100 true)] :=
  ⟨by decide,
    order_entry_commands idleMarket () OrderSide.BUY "7".toList "3".toList "42".toList
      "100".toList "5".toList (by decide) (by decide) (by decide) (by decide) (by decide)
      (by decide) (by decide) (by decide) (by decide) (by decide)⟩

/-- Claim C2: for all decimal numerals `I`, `N`, `P`, `Q` of value at most
2147483647, the lines `reduce limit I Q`, `modify limit I P Q`,
`replace limit I N P Q` and `delete order I` make `main` issue exactly
`ReduceOrder(I, Q)`, `ModifyOrder(I, P, Q)`, `ReplaceOrder(I, N, P, Q)` and
`DeleteOrder(I)`, the arguments in this order. -/
theorem order_mutation_commands {σ : Type} (M : MarketManager σ) (market : σ)
    (I N P Q : Str) (hI : Numeral I) (hN : Numeral N) (hP : Numeral P) (hQ : Numeral Q)
    (vI : FitsInt I) (vN : FitsInt N) (vP : FitsInt P) (vQ : FitsInt Q) :
    (processLine M market ("reduce limit".toList ++ spaced [I, Q])).calls =
      [Op.ReduceOrder (decimalValue I) (decimalValue Q)] ∧
    (processLine M market ("modify limit".toList ++ spaced [I, P, Q])).calls =
      [Op.ModifyOrder (decimalValue I) (decimalValue P) (decimalValue Q)] ∧
    (processLine M market ("replace limit".toList ++ spaced [I, N, P, Q])).calls =
      [Op.ReplaceOrder (decimalValue I) (decimalValue N) (decimalValue P) (decimalValue Q)] ∧
    (processLine M market ("delete order".toList ++ spaced [I])).calls =
      [Op.DeleteOrder (decimalValue I)] := by
  refine ⟨?_, ?_, ?_, ?_⟩
  · refine calls_of_wf M market Command.ReduceLimitOrder _ [I, Q] _
      (Fields.cons hI (Fields.cons hQ Fields.nil)) ?_ rfl
    intro a ha
    simp only [Command.fields, numerals, List.mem_cons, List.mem_singleton,
      List.not_mem_nil, or_false] at ha
    rcases ha with rfl | rfl <;> assumption
  · refine calls_of_wf M market Command.ModifyLimitOrder _ [I, P, Q] _
      (Fields.cons hI (Fields.cons hP (Fields.cons hQ Fields.nil))) ?_ rfl
    intro a ha
    simp only [Command.fields, numerals, List.mem_cons, List.mem_singleton,
      List.not_mem_nil, or_false] at ha
    rcases ha with rfl | rfl | rfl <;> assumption
  · refine calls_of_wf M market Command.ReplaceLimitOrder _ [I, N, P, Q] _
      (Fields.cons hI (Fields.cons hN (Fields.cons hP (Fields.cons hQ Fields.nil)))) ?_ rfl
    intro a ha
    simp only [Command.fields, numerals, List.mem_cons, List.mem_singleton,
      List.not_mem_nil, or_false] at ha
    rcases ha with rfl | rfl | rfl | rfl <;> assumption
  · refine calls_of_wf M market Command.DeleteOrder _ [I] _ (Fields.cons hI Fields.nil) ?_ rfl
    intro a ha
    simp only [Command.fields, numerals, List.mem_cons, List.mem_singleton,
      List.not_mem_nil, or_false] at ha
    rw [ha]; assumption

/-- Claim C2 at the lines `reduce limit 12 25`, `modify limit 12 500 25`,
`replace limit 12 13 500 25` and `delete order 12`. -/
theorem order_mutation_commands_witness :
    (Numeral "12".toList ∧ Numeral "13".toList ∧ Numeral "500".toList ∧ Numeral "25".toList ∧
      FitsInt "12".toList ∧ FitsInt "13".toList ∧ FitsInt "500".toList ∧
      FitsInt "25".toList) ∧
    (processLine idleMarket () "reduce limit 12 25".toList).calls = [Op.ReduceOrder 12 25] ∧
    (processLine idleMarket () "modify limit 12 500 25".toList).calls =
      [Op.ModifyOrder 12 500 25] ∧
    (processLine idleMarket () "replace limit 12 13 500 25".toList).calls =
      [Op.ReplaceOrder 12 13 500 25] ∧
    (processLine idleMarket () "delete order 12".toList).calls = [Op.DeleteOrder 12] :=
  ⟨by decide,
    order_mutation_commands idleMarket () "12".toList "13".toList "500".toList "25".toList
      (by decide) (by decide) (by decide) (by decide) (by decide) (by decide) (by decide)
      (by decide)⟩

theorem c_str_of_no_nul (s : Str) (h : ∀ c ∈ s, c ≠ Char.ofNat 0) : c_str s = s := by
  unfold c_str
  apply takeWhile_all
  intro c hc
  simpa using h c hc

theorem toggle_calls {σ : Type} (M : MarketManager σ) (market : σ) :
    (processLine M market "enable matching".toList).calls = [Op.EnableMatching] ∧
    (processLine M market "disable matching".toList).calls = [Op.DisableMatching] := by
  constructor
  · unfold processLine
    rw [if_neg (by decide), if_neg (by decide), if_neg (by decide), if_pos rfl]
  · unfold processLine
    rw [if_neg (by decide), if_neg (by decide), if_neg (by decide), if_neg (by decide),
      if_pos rfl]

/-- Claim C3, as amended: for every decimal numeral `I` of value at most
2147483647 and every non-empty name that contains no line terminator and no
NUL character, `add symbol I NAME` makes `main` issue exactly `AddSymbol` of
the symbol with id `I` and the name verbatim, `delete symbol I` exactly
`DeleteSymbol(I)`, `add book I` exactly `AddOrderBook` for the symbol with id
`I`, `delete book I` exactly `DeleteOrderBook(I)`, and the lines
`enable matching` / `disable matching` exactly `EnableMatching()` /
`DisableMatching()`. -/
theorem symbol_book_toggle_commands {σ : Type} (M : MarketManager σ) (market : σ)
    (I NAME : Str) (hI : Numeral I) (vI : FitsInt I) (hne : NAME ≠ [])
    (hNAME : ∀ c ∈ NAME, c ≠ '\n' ∧ c ≠ '\r' ∧ c ≠ Char.ofNat 0) :
    (processLine M market ("add symbol".toList ++ spaced [I, NAME])).calls =
      [Op.AddSymbol ⟨decimalValue I, NAME⟩] ∧
    (processLine M market ("delete symbol".toList ++ spaced [I])).calls =
      [Op.DeleteSymbol (decimalValue I)] ∧
    (processLine M market ("add book".toList ++ spaced [I])).calls =
      [Op.AddOrderBook ⟨decimalValue I, []⟩] ∧
    (processLine M market ("delete book".toList ++ spaced [I])).calls =
      [Op.DeleteOrderBook (decimalValue I)] ∧
    (processLine M market "enable matching".toList).calls = [Op.EnableMatching] ∧
    (processLine M market "disable matching".toList).calls = [Op.DisableMatching] := by
  have hname : Field.name.ok NAME := by
    refine ⟨hne, fun c hc => ?_⟩
    have := hNAME c hc
    simp [isDotChar, this.1, this.2.1]
  have hin : ∀ a ∈ [I], FitsInt a := by
    intro a ha
    simp only [List.mem_singleton] at ha
    rw [ha]; exact vI
  refine ⟨?_, ?_, ?_, ?_, (toggle_calls M market).1, (toggle_calls M market).2⟩
  · refine calls_of_wf M market Command.AddSymbol _ [I, NAME] _
      (Fields.cons hI (Fields.cons hname Fields.nil)) hin ?_
    simp only [Command.denote]
    rw [c_str_of_no_nul NAME (fun c hc => (hNAME c hc).2.2)]
  · exact calls_of_wf M market Command.DeleteSymbol _ [I] _ (Fields.cons hI Fields.nil) hin rfl
  · exact calls_of_wf M market Command.AddOrderBook _ [I] _ (Fields.cons hI Fields.nil) hin rfl
  · exact calls_of_wf M market Command.DeleteOrderBook _ [I] _ (Fields.cons hI Fields.nil)
      hin rfl

/-- Claim C3 at the name `delete order 5` and the id `5`. -/
theorem symbol_book_toggle_commands_witness :
    (Numeral "5".toList ∧ FitsInt "5".toList ∧ "delete order 5".toList ≠ [] ∧
      ∀ c ∈ "delete order 5".toList, c ≠ '\n' ∧ c ≠ '\r' ∧ c ≠ Char.ofNat 0) ∧
    (processLine idleMarket () "add symbol 5 delete order 5".toList).calls =
      [Op.AddSymbol ⟨5, "delete order 5".toList⟩] ∧
    (processLine idleMarket () "delete symbol 5".toList).calls = [Op.DeleteSymbol 5] ∧
    (processLine idleMarket () "add book 5".toList).calls = [Op.AddOrderBook ⟨5, []⟩] ∧
    (processLine idleMarket () "delete book 5".toList).calls = [Op.DeleteOrderBook 5] ∧
    (processLine idleMarket () "enable matching".toList).calls = [Op.EnableMatching] ∧
    (processLine idleMarket () "disable matching".toList).calls = [Op.DisableMatching] :=
  ⟨by decide,
    symbol_book_toggle_commands idleMarket () "5".toList "delete order 5".toList (by decide)
      (by decide) (by decide) (by decide)⟩

/-- Claim C3 fails as stated: the name `a`, NUL, `b` is non-empty and has no
line terminator, yet `add symbol 1 ` followed by it adds the symbol named
`a`, because the name reaches the `Symbol` constructor through `c_str()`. -/
theorem add_symbol_name_cut_at_nul :
    (Numeral "1".toList ∧ FitsInt "1".toList ∧ ['a', Char.ofNat 0, 'b'] ≠ [] ∧
      ∀ c ∈ ['a', Char.ofNat 0, 'b'], c ≠ '\n' ∧ c ≠ '\r') ∧
    (processLine idleMarket ()
        ("add symbol".toList ++ spaced ["1".toList, ['a', Char.ofNat 0, 'b']])).calls =
      [Op.AddSymbol ⟨1, ['a']⟩] ∧
    (processLine idleMarket ()
        ("add symbol".toList ++ spaced ["1".toList, ['a', Char.ofNat 0, 'b']])).calls ≠
      [Op.AddSymbol ⟨decimalValue "1".toList, ['a', Char.ofNat 0, 'b']⟩] := by
  decide

/-! ## Arbitrary lines through `main` -/

theorem hash_of_find_zero {line : Str} (h : find line "#".toList = some 0) :
    ∃ t, line = '#' :: t := by
  obtain ⟨b, hb⟩ := (isPrefixOf_eq_true_iff _ _).1 (find_zero h)
  exact ⟨b, hb⟩

theorem usage_keyword {c : Command} {line : Str} {vs : List Str} (h : c.usage line vs) :
    ∃ t, line = c.keyword ++ t := by
  obtain ⟨t, ht, -⟩ := h
  exact ⟨t, ht⟩

/-- Claim C4: for every input line `main` issues at most one engine
operation; it issues one only if the line is exactly `enable matching` or
`disable matching` (and the operation is that toggle) or the whole line
follows the usage of a command and the operation is the one this line stands
for; on every other line no operation is issued and the line is `help`,
`exit`, `quit`, empty, starts with `#`, or produces exactly one
`Invalid '<command>' command` or `Unknown command` diagnostic. -/
theorem only_parsed_commands {σ : Type} (M : MarketManager σ) (market : σ) (line : Str) :
    (processLine M market line).calls.length ≤ 1 ∧
    (∀ op ∈ (processLine M market line).calls,
      (line = "enable matching".toList ∧ op = Op.EnableMatching) ∨
      (line = "disable matching".toList ∧ op = Op.DisableMatching) ∨
      ∃ (c : Command) (vs : List Str), c.usage line vs ∧ c.denote vs = some op) ∧
    ((line ≠ "enable matching".toList ∧ line ≠ "disable matching".toList ∧
        ∀ (c : Command) (vs : List Str), ¬ c.usage line vs) →
      (processLine M market line).calls = [] ∧
      (line = "help".toList ∨ line = "exit".toList ∨ line = "quit".toList ∨ line = [] ∨
        (∃ t, line = '#' :: t) ∨
        (∃ c : Command, (processLine M market line).cerr = [Cerr.Invalid c.name line]) ∨
        (processLine M market line).cerr = [Cerr.Unknown line])) := by
  have hd := processLine_dispatch M market line
  generalize processLine M market line = r at hd
  cases hd with
  | help h =>
    refine ⟨by simp, by simp, fun _ => ⟨rfl, Or.inl h⟩⟩
  | exit h =>
    refine ⟨by simp, by simp, fun _ => ⟨rfl, ?_⟩⟩
    rcases h with h | h
    · exact Or.inr (Or.inl h)
    · exact Or.inr (Or.inr (Or.inl h))
  | skip h =>
    refine ⟨by simp, by simp, fun _ => ⟨rfl, ?_⟩⟩
    rcases h with h | h
    · exact Or.inr (Or.inr (Or.inr (Or.inr (Or.inl (hash_of_find_zero h)))))
    · exact Or.inr (Or.inr (Or.inr (Or.inl h)))
  | enable h =>
    refine ⟨by simp, ?_, fun hh => absurd h hh.1⟩
    intro op hop
    simp only [List.mem_singleton] at hop
    exact Or.inl ⟨h, hop⟩
  | disable h =>
    refine ⟨by simp, ?_, fun hh => absurd h hh.2.1⟩
    intro op hop
    simp only [List.mem_singleton] at hop
    exact Or.inr (Or.inl ⟨h, hop⟩)
  | command c hfound =>
    rcases handler_cases c M market line with
      ⟨-, e⟩ | ⟨vs, op, s, market1, hu, hden, -, (⟨-, e⟩ | ⟨-, e⟩)⟩
    · rw [e]
      refine ⟨by simp [LineResult.ofOutcome, Outcome.invalid],
        by simp [LineResult.ofOutcome, Outcome.invalid], fun _ => ⟨rfl, ?_⟩⟩
      exact Or.inr (Or.inr (Or.inr (Or.inr (Or.inr (Or.inl ⟨c, rfl⟩)))))
    · rw [e]
      refine ⟨by simp [LineResult.ofOutcome, Outcome.ofResult], ?_,
        fun hh => absurd hu (hh.2.2 c vs)⟩
      intro op1 hop
      simp only [LineResult.ofOutcome, Outcome.ofResult, List.mem_singleton] at hop
      exact Or.inr (Or.inr ⟨c, vs, hu, hop ▸ hden⟩)
    · rw [e]
      refine ⟨by simp [LineResult.ofOutcome, Outcome.throw],
        by simp [LineResult.ofOutcome, Outcome.throw], fun hh => absurd hu (hh.2.2 c vs)⟩
  | unknown =>
    refine ⟨by simp, by simp, fun _ => ⟨rfl, ?_⟩⟩
    exact Or.inr (Or.inr (Or.inr (Or.inr (Or.inr (Or.inr rfl)))))

theorem no_usage_of_take_two (line : Str)
    (h : ∀ c : Command, c.keyword.take 2 ≠ line.take 2) :
    ∀ (c : Command) (vs : List Str), ¬ c.usage line vs := by
  rintro c vs ⟨t, rfl, -⟩
  exact h c (take_two_keyword c t).symm

/-- Claim C4 at the lines `add book 1` and `buy 1 2 3`. -/
theorem only_parsed_commands_witness :
    (Op.AddOrderBook ⟨1, []⟩ ∈ (processLine idleMarket () "add book 1".toList).calls ∧
      (("add book 1".toList = "enable matching".toList ∧
          Op.AddOrderBook ⟨1, []⟩ = Op.EnableMatching) ∨
        ("add book 1".toList = "disable matching".toList ∧
          Op.AddOrderBook ⟨1, []⟩ = Op.DisableMatching) ∨
        ∃ (c : Command) (vs : List Str), c.usage "add book 1".toList vs ∧
          c.denote vs = some (Op.AddOrderBook ⟨1, []⟩))) ∧
    (("buy 1 2 3".toList ≠ "enable matching".toList ∧
        "buy 1 2 3".toList ≠ "disable matching".toList ∧
        ∀ (c : Command) (vs : List Str), ¬ c.usage "buy 1 2 3".toList vs) ∧
      (processLine idleMarket () "buy 1 2 3".toList).calls = [] ∧
      ("buy 1 2 3".toList = "help".toList ∨ "buy 1 2 3".toList = "exit".toList ∨
        "buy 1 2 3".toList = "quit".toList ∨ "buy 1 2 3".toList = [] ∨
        (∃ t, "buy 1 2 3".toList = '#' :: t) ∨
        (∃ c : Command,
          (processLine idleMarket () "buy 1 2 3".toList).cerr =
            [Cerr.Invalid c.name "buy 1 2 3".toList]) ∨
        (processLine idleMarket () "buy 1 2 3".toList).cerr =
          [Cerr.Unknown "buy 1 2 3".toList])) :=
  have hno : ∀ (c : Command) (vs : List Str), ¬ c.usage "buy 1 2 3".toList vs :=
    no_usage_of_take_two _ (fun c => by cases c <;> decide)
  ⟨⟨by decide,
      (only_parsed_commands idleMarket () "add book 1".toList).2.1 _ (by decide)⟩,
    ⟨⟨by decide, by decide, hno⟩,
      (only_parsed_commands idleMarket () "buy 1 2 3".toList).2.2
        ⟨by decide, by decide, hno⟩⟩⟩

/-! ## The statuses of the engine do not steer the driver -/

theorem handler_indep {σ τ : Type} (c : Command) (M : MarketManager σ) (market : σ)
    (N : MarketManager τ) (market2 : τ) (line : Str) :
    (c.handler M market line).calls = (c.handler N market2 line).calls ∧
    (c.handler M market line).thrown = (c.handler N market2 line).thrown := by
  by_cases hu : ∃ t vs, line = c.keyword ++ t ∧ Fields c.fields t vs
  · obtain ⟨t, vs, rfl, hvs⟩ := hu
    obtain ⟨op, s, m1, hd, -, h1, h2⟩ := handler_wf c M market t vs hvs
    obtain ⟨op2, s2, m2, hd2, -, k1, k2⟩ := handler_wf c N market2 t vs hvs
    rw [hd] at hd2
    have e : op2 = op := (Option.some.inj hd2).symm
    subst e
    by_cases hin : c.inRange vs
    · rw [h1 hin, k1 hin]; exact ⟨rfl, rfl⟩
    · rw [h2 hin, k2 hin]; exact ⟨rfl, rfl⟩
  · have hno : ∀ t vs, line = c.keyword ++ t → ¬ Fields c.fields t vs :=
      fun t vs ht hvs => hu ⟨t, vs, ht, hvs⟩
    rw [handler_not c M market line hno, handler_not c N market2 line hno]
    exact ⟨rfl, rfl⟩

theorem ofOutcome_indep {σ τ : Type} (o : Outcome σ) (o2 : Outcome τ)
    (h : o.calls = o2.calls ∧ o.thrown = o2.thrown) :
    (LineResult.ofOutcome o).calls = (LineResult.ofOutcome o2).calls ∧
    (LineResult.ofOutcome o).flow = (LineResult.ofOutcome o2).flow := by
  simp only [LineResult.ofOutcome, h.1, h.2, and_self]

theorem processLine_indep {σ τ : Type} (M : MarketManager σ) (market : σ)
    (N : MarketManager τ) (market2 : τ) (line : Str) :
    (processLine M market line).calls = (processLine N market2 line).calls ∧
    (processLine M market line).flow = (processLine N market2 line).flow := by
  unfold processLine
  by_cases h1 : line = "help".toList
  · simp only [if_pos h1, and_self]
  simp only [if_neg h1]
  by_cases h2 : line = "exit".toList ∨ line = "quit".toList
  · simp only [if_pos h2, and_self]
  simp only [if_neg h2]
  by_cases h3 : find line "#".toList = some 0 ∨ line = "".toList
  · simp only [if_pos h3, and_self]
  simp only [if_neg h3]
  by_cases h4 : line = "enable matching".toList
  · simp only [if_pos h4, and_self]
  simp only [if_neg h4]
  by_cases h5 : line = "disable matching".toList
  · simp only [if_pos h5, and_self]
  simp only [if_neg h5]
  by_cases c1 : find line "add symbol".toList ≠ none
  · simp only [if_pos c1]
    exact ofOutcome_indep _ _ (handler_indep Command.AddSymbol M market N market2 line)
  simp only [if_neg c1]
  by_cases c2 : find line "delete symbol".toList ≠ none
  · simp only [if_pos c2]
    exact ofOutcome_indep _ _ (handler_indep Command.DeleteSymbol M market N market2 line)
  simp only [if_neg c2]
  by_cases c3 : find line "add book".toList ≠ none
  · simp only [if_pos c3]
    exact ofOutcome_indep _ _ (handler_indep Command.AddOrderBook M market N market2 line)
  simp only [if_neg c3]
  by_cases c4 : find line "delete book".toList ≠ none
  · simp only [if_pos c4]
    exact ofOutcome_indep _ _ (handler_indep Command.DeleteOrderBook M market N market2 line)
  simp only [if_neg c4]
  by_cases c5 : find line "add market".toList ≠ none
  · simp only [if_pos c5]
    exact ofOutcome_indep _ _ (handler_indep Command.AddMarketOrder M market N market2 line)
  simp only [if_neg c5]
  by_cases c6 : find line "add slippage market".toList ≠ none
  · simp only [if_pos c6]
    exact ofOutcome_indep _ _ (handler_indep Command.AddSlippageMarketOrder M market N market2 line)
  simp only [if_neg c6]
  by_cases c7 : find line "add limit".toList ≠ none
  · simp only [if_pos c7]
    exact ofOutcome_indep _ _ (handler_indep Command.AddLimitOrder M market N market2 line)
  simp only [if_neg c7]
  by_cases c8 : find line "add aon limit".toList ≠ none
  · simp only [if_pos c8]
    exact ofOutcome_indep _ _ (handler_indep Command.AddAONLimitOrder M market N market2 line)
  simp only [if_neg c8]
  by_cases c9 : find line "reduce limit".toList ≠ none
  · simp only [if_pos c9]
    exact ofOutcome_indep _ _ (handler_indep Command.ReduceLimitOrder M market N market2 line)
  simp only [if_neg c9]
  by_cases c10 : find line "modify limit".toList ≠ none
  · simp only [if_pos c10]
    exact ofOutcome_indep _ _ (handler_indep Command.ModifyLimitOrder M market N market2 line)
  simp only [if_neg c10]
  by_cases c11 : find line "replace limit".toList ≠ none
  · simp only [if_pos c11]
    exact ofOutcome_indep _ _ (handler_indep Command.ReplaceLimitOrder M market N market2 line)
  simp only [if_neg c11]
  by_cases c12 : find line "delete order".toList ≠ none
  · simp only [if_pos c12]
    exact ofOutcome_indep _ _ (handler_indep Command.DeleteOrder M market N market2 line)
  simp only [if_neg c12, and_self]

theorem mainLoop_indep {σ τ : Type} (M : MarketManager σ) (N : MarketManager τ) :
    ∀ (lines : List Str) (market : σ) (market2 : τ),
      (mainLoop M lines market).calls = (mainLoop N lines market2).calls := by
  intro lines
  induction lines with
  | nil => intro _ _; rfl
  | cons line rest ih =>
    intro market market2
    obtain ⟨hc, hf⟩ := processLine_indep M market N market2 line
    rw [mainLoop, mainLoop]
    simp only
    cases hfl : (processLine M market line).flow with
    | next =>
      rw [hfl] at hf
      rw [← hf]
      simp only [hc, ih (processLine M market line).market (processLine N market2 line).market]
    | exit =>
      rw [hfl] at hf
      rw [← hf]
      exact hc
    | terminate e =>
      rw [hfl] at hf
      rw [← hf]
      exact hc

theorem status_reported {σ : Type} (M : MarketManager σ) (market : σ) (line : Str) :
    ∀ op ∈ (processLine M market line).calls, ∀ (s : ErrorCode) (market1 : σ),
      M.reply op market = (some s, market1) →
        (processLine M market line).calls = [op] ∧
        (processLine M market line).flow = Flow.next ∧
        (processLine M market line).market = market1 ∧
        ∃ c : Command, (∃ t, line = c.keyword ++ t) ∧
          (processLine M market line).cerr =
            if s = ErrorCode.OK then [] else [Cerr.Failed c.name s] := by
  have hd := processLine_dispatch M market line
  generalize processLine M market line = r at hd
  cases hd with
  | help h => intro op hop; simp at hop
  | exit h => intro op hop; simp at hop
  | skip h => intro op hop; simp at hop
  | enable h =>
    intro op hop s market1 hrep
    simp only [List.mem_singleton] at hop
    rw [hop] at hrep
    simp [MarketManager.reply] at hrep
  | disable h =>
    intro op hop s market1 hrep
    simp only [List.mem_singleton] at hop
    rw [hop] at hrep
    simp [MarketManager.reply] at hrep
  | command c hfound =>
    rcases handler_cases c M market line with
      ⟨-, e⟩ | ⟨vs, op0, s0, m0, hu, -, hrep0, (⟨-, e⟩ | ⟨-, e⟩)⟩
    · rw [e]; intro op hop; simp [LineResult.ofOutcome, Outcome.invalid] at hop
    · rw [e]
      intro op hop s market1 hrep
      simp only [LineResult.ofOutcome, Outcome.ofResult, List.mem_singleton] at hop
      subst hop
      rw [hrep0] at hrep
      simp only [Prod.mk.injEq, Option.some.injEq] at hrep
      obtain ⟨rfl, rfl⟩ := hrep
      refine ⟨rfl, rfl, rfl, c, usage_keyword hu, ?_⟩
      simp only [LineResult.ofOutcome, Outcome.ofResult, ne_eq, ite_not]
    · rw [e]; intro op hop; simp [LineResult.ofOutcome, Outcome.throw] at hop
  | unknown => intro op hop; simp at hop

/-- After a line on which the loop goes on, the run over `line :: rest` is
what the line did followed by the run over `rest` from the state it left. -/
theorem mainLoop_cons_next {σ : Type} (M : MarketManager σ) (market : σ) (line : Str)
    (rest : List Str) (h : (processLine M market line).flow = Flow.next) :
    mainLoop M (line :: rest) market =
      ⟨(mainLoop M rest (processLine M market line).market).market,
        (processLine M market line).calls ++
          (mainLoop M rest (processLine M market line).market).calls,
        (processLine M market line).cerr ++
          (mainLoop M rest (processLine M market line).market).cerr,
        (processLine M market line).cout ++
          (mainLoop M rest (processLine M market line).market).cout,
        (mainLoop M rest (processLine M market line).market).terminated⟩ := by
  rw [mainLoop]
  simp only [h]

/-- After a line on which the loop stops, nothing of `rest` is run. -/
theorem mainLoop_cons_stop {σ : Type} (M : MarketManager σ) (market : σ) (line : Str)
    (rest : List Str) (h : (processLine M market line).flow ≠ Flow.next) :
    (mainLoop M (line :: rest) market).calls = (processLine M market line).calls := by
  rw [mainLoop]
  cases hf : (processLine M market line).flow with
  | next => exact absurd hf h
  | exit => rfl
  | terminate e => rfl

/-- Claim C7: when the operation `op` issued for a line returns the status
`s` and leaves the engine in `market1`, the driver writes
`Failed '<command>' command: <s>` if and only if `s` is not `OK`, `op` is the
only operation issued for the line, and the loop goes on to process the next
input line: the run over the line and any further lines `rest` issues `op`
followed by the operations of the run over `rest` from `market1`, writes the
diagnostics of the line followed by those of that run, and ends as that run
ends.  The operations issued over a whole input are the same for every
engine, whatever statuses it returns; so are the operations and the control
flow of each single line, and the run over `line :: rest` always issues the
operations of the line followed, when the loop goes on, by those of the run
over `rest`. -/
theorem failures_are_local {σ τ : Type} (M : MarketManager σ) (market : σ) (line : Str) :
    (∀ op ∈ (processLine M market line).calls, ∀ (s : ErrorCode) (market1 : σ),
      M.reply op market = (some s, market1) →
        (processLine M market line).calls = [op] ∧
        (processLine M market line).flow = Flow.next ∧
        (processLine M market line).market = market1 ∧
        (∃ c : Command, (∃ t, line = c.keyword ++ t) ∧
          (processLine M market line).cerr =
            (if s = ErrorCode.OK then [] else [Cerr.Failed c.name s]) ∧
          ∀ rest : List Str,
            (mainLoop M (line :: rest) market).cerr =
              (if s = ErrorCode.OK then [] else [Cerr.Failed c.name s]) ++
                (mainLoop M rest market1).cerr) ∧
        ∀ rest : List Str,
          (mainLoop M (line :: rest) market).calls = op :: (mainLoop M rest market1).calls ∧
          (mainLoop M (line :: rest) market).market = (mainLoop M rest market1).market ∧
          (mainLoop M (line :: rest) market).terminated =
            (mainLoop M rest market1).terminated) ∧
    (∀ (lines : List Str) (N : MarketManager τ) (market2 : τ),
      (mainLoop M lines market).calls = (mainLoop N lines market2).calls) ∧
    (∀ (N : MarketManager τ) (market2 : τ),
      (processLine M market line).calls = (processLine N market2 line).calls ∧
      (processLine M market line).flow = (processLine N market2 line).flow) ∧
    (∀ rest : List Str,
      (mainLoop M (line :: rest) market).calls =
        (processLine M market line).calls ++
          if (processLine M market line).flow = Flow.next then
            (mainLoop M rest (processLine M market line).market).calls
          else []) := by
  refine ⟨?_, fun lines N market2 => mainLoop_indep M N lines market market2,
    fun N market2 => processLine_indep M market N market2 line, ?_⟩
  · intro op hop s market1 hrep
    obtain ⟨hc, hf, hm, c, hk, he⟩ := status_reported M market line op hop s market1 hrep
    have hcons := fun rest => mainLoop_cons_next M market line rest hf
    refine ⟨hc, hf, hm, ⟨c, hk, he, fun rest => ?_⟩, fun rest => ⟨?_, ?_, ?_⟩⟩
    · rw [hcons rest, he, hm]
    · rw [hcons rest, hc, hm]; rfl
    · rw [hcons rest, hm]
    · rw [hcons rest, hm]
  · intro rest
    by_cases hf : (processLine M market line).flow = Flow.next
    · rw [if_pos hf, mainLoop_cons_next M market line rest hf]
    · rw [if_neg hf, mainLoop_cons_stop M market line rest hf, List.append_nil]

/-- Claim C7 at the line `add book 1`, followed by the line `delete order 9`,
against an engine that refuses both. -/
theorem failures_are_local_witness :
    (Op.AddOrderBook ⟨1, []⟩ ∈ (processLine refusingMarket () "add book 1".toList).calls ∧
      refusingMarket.reply (Op.AddOrderBook ⟨1, []⟩) () =
        (some ErrorCode.ORDER_BOOK_DUPLICATE, ())) ∧
    ((processLine refusingMarket () "add book 1".toList).calls = [Op.AddOrderBook ⟨1, []⟩] ∧
      (processLine refusingMarket () "add book 1".toList).flow = Flow.next ∧
      (processLine refusingMarket () "add book 1".toList).market = () ∧
      (∃ c : Command, (∃ t, "add book 1".toList = c.keyword ++ t) ∧
        (processLine refusingMarket () "add book 1".toList).cerr =
          (if ErrorCode.ORDER_BOOK_DUPLICATE = ErrorCode.OK then []
            else [Cerr.Failed c.name ErrorCode.ORDER_BOOK_DUPLICATE]) ∧
        ∀ rest : List Str,
          (mainLoop refusingMarket ("add book 1".toList :: rest) ()).cerr =
            (if ErrorCode.ORDER_BOOK_DUPLICATE = ErrorCode.OK then []
              else [Cerr.Failed c.name ErrorCode.ORDER_BOOK_DUPLICATE]) ++
              (mainLoop refusingMarket rest ()).cerr) ∧
      (mainLoop refusingMarket ["add book 1".toList, "delete order 9".toList] ()).calls =
        Op.AddOrderBook ⟨1, []⟩ ::
          (mainLoop refusingMarket ["delete order 9".toList] ()).calls ∧
      (mainLoop refusingMarket ["add book 1".toList, "delete order 9".toList] ()).market =
        (mainLoop refusingMarket ["delete order 9".toList] ()).market ∧
      (mainLoop refusingMarket ["add book 1".toList, "delete order 9".toList] ()).terminated =
        (mainLoop refusingMarket ["delete order 9".toList] ()).terminated) ∧
    (mainLoop refusingMarket ["delete order 9".toList] ()).calls = [Op.DeleteOrder 9] ∧
    (mainLoop refusingMarket ["add book 1".toList, "delete order 9".toList] ()).cerr =
      [Cerr.Failed "add book" ErrorCode.ORDER_BOOK_DUPLICATE,
        Cerr.Failed "delete order" ErrorCode.ORDER_NOT_FOUND] :=
  have h := (@failures_are_local Unit Unit refusingMarket () "add book 1".toList).1
    (Op.AddOrderBook ⟨1, []⟩) (by decide) ErrorCode.ORDER_BOOK_DUPLICATE () rfl
  ⟨⟨by decide, rfl⟩,
    ⟨h.1, h.2.1, h.2.2.1, h.2.2.2.1, h.2.2.2.2 ["delete order 9".toList]⟩,
    by decide, by decide⟩

/-! ## The side of an order command -/

theorem invalidSide_not_mem_ofResult {σ : Type} (name : String) (op : Op) (r : ErrorCode × σ)
    (kind : String) (side : Str) :
    Cerr.InvalidSide kind side ∉ (Outcome.ofResult name op r).cerr := by
  simp only [Outcome.ofResult]
  split_ifs <;> simp

/-- The invalid-side branch of the four order handlers is dead code: whenever
the pattern of `AddMarketOrder`, `AddSlippageMarketOrder`, `AddLimitOrder` or
`AddAONLimitOrder` matches a command, the captured side is exactly `buy` or
`sell` and the handler never reports an invalid side; when moreover every
numeral of the command fits `int`, the handler constructs an order and calls
`AddOrder` exactly once. -/
theorem invalid_side_unreachable {σ : Type} (M : MarketManager σ) (market : σ) (c : Command)
    (hc : c = Command.AddMarketOrder ∨ c = Command.AddSlippageMarketOrder ∨
      c = Command.AddLimitOrder ∨ c = Command.AddAONLimitOrder)
    (command : Str) (m : Smatch) (hm : regex_search command c.pattern = some m) :
    (m.get 1 = "buy".toList ∨ m.get 1 = "sell".toList) ∧
    (∀ (kind : String) (side : Str),
      Cerr.InvalidSide kind side ∉ (c.handler M market command).cerr) ∧
    ((∀ i, 2 ≤ i → i ≤ c.fields.length → FitsInt (m.get i)) →
      ∃ order, (c.handler M market command).calls = [Op.AddOrder order]) := by
  rw [pattern_eq] at hm
  obtain ⟨t, vs, rfl, hvs, rfl⟩ := search_sound _ _ _ _ hm
  obtain ⟨op, s, market1, hden, -, h1, h2⟩ := handler_wf c M market t vs hvs
  have hcerr : ∀ (kind : String) (side : Str),
      Cerr.InvalidSide kind side ∉ (c.handler M market (c.keyword ++ t)).cerr := by
    intro kind side
    by_cases hin : c.inRange vs
    · rw [h1 hin]; exact invalidSide_not_mem_ofResult _ _ _ _ _
    · rw [h2 hin]; simp [Outcome.throw]
  rcases hc with rfl | rfl | rfl | rfl
  · simp only [Command.fields] at hvs
    obtain ⟨a1, b1, w1, ok1, f1, -, rfl⟩ := (fields_cons_iff _ _ _ _).1 hvs
    obtain ⟨a2, b2, w2, ok2, f2, -, rfl⟩ := (fields_cons_iff _ _ _ _).1 f1
    obtain ⟨a3, b3, w3, ok3, f3, -, rfl⟩ := (fields_cons_iff _ _ _ _).1 f2
    obtain ⟨a4, b4, w4, ok4, f4, -, rfl⟩ := (fields_cons_iff _ _ _ _).1 f3
    obtain ⟨-, rfl⟩ := (fields_nil_iff _ _).1 f4
    refine ⟨ok1, hcerr, fun hfit => ?_⟩
    have hin : Command.inRange Command.AddMarketOrder [a1, a2, a3, a4] := by
      intro a ha
      simp only [Command.fields, numerals, List.mem_cons, List.mem_singleton,
        List.not_mem_nil, or_false] at ha
      rcases ha with rfl | rfl | rfl
      · exact hfit 2 (by decide) (by decide)
      · exact hfit 3 (by decide) (by decide)
      · exact hfit 4 (by decide) (by decide)
    rw [h1 hin]
    simp only [Command.denote, Option.some.injEq] at hden
    exact ⟨_, by rw [← hden]; rfl⟩
  · simp only [Command.fields] at hvs
    obtain ⟨a1, b1, w1, ok1, f1, -, rfl⟩ := (fields_cons_iff _ _ _ _).1 hvs
    obtain ⟨a2, b2, w2, ok2, f2, -, rfl⟩ := (fields_cons_iff _ _ _ _).1 f1
    obtain ⟨a3, b3, w3, ok3, f3, -, rfl⟩ := (fields_cons_iff _ _ _ _).1 f2
    obtain ⟨a4, b4, w4, ok4, f4, -, rfl⟩ := (fields_cons_iff _ _ _ _).1 f3
    obtain ⟨a5, b5, w5, ok5, f5, -, rfl⟩ := (fields_cons_iff _ _ _ _).1 f4
    obtain ⟨-, rfl⟩ := (fields_nil_iff _ _).1 f5
    refine ⟨ok1, hcerr, fun hfit => ?_⟩
    have hin : Command.inRange Command.AddSlippageMarketOrder [a1, a2, a3, a4, a5] := by
      intro a ha
      simp only [Command.fields, numerals, List.mem_cons, List.mem_singleton,
        List.not_mem_nil, or_false] at ha
      rcases ha with rfl | rfl | rfl | rfl
      · exact hfit 2 (by decide) (by decide)
      · exact hfit 3 (by decide) (by decide)
      · exact hfit 4 (by decide) (by decide)
      · exact hfit 5 (by decide) (by decide)
    rw [h1 hin]
    simp only [Command.denote, Option.some.injEq] at hden
    exact ⟨_, by rw [← hden]; rfl⟩
  · simp only [Command.fields] at hvs
    obtain ⟨a1, b1, w1, ok1, f1, -, rfl⟩ := (fields_cons_iff _ _ _ _).1 hvs
    obtain ⟨a2, b2, w2, ok2, f2, -, rfl⟩ := (fields_cons_iff _ _ _ _).1 f1
    obtain ⟨a3, b3, w3, ok3, f3, -, rfl⟩ := (fields_cons_iff _ _ _ _).1 f2
    obtain ⟨a4, b4, w4, ok4, f4, -, rfl⟩ := (fields_cons_iff _ _ _ _).1 f3
    obtain ⟨a5, b5, w5, ok5, f5, -, rfl⟩ := (fields_cons_iff _ _ _ _).1 f4
    obtain ⟨-, rfl⟩ := (fields_nil_iff _ _).1 f5
    refine ⟨ok1, hcerr, fun hfit => ?_⟩
    have hin : Command.inRange Command.AddLimitOrder [a1, a2, a3, a4, a5] := by
      intro a ha
      simp only [Command.fields, numerals, List.mem_cons, List.mem_singleton,
        List.not_mem_nil, or_false] at ha
      rcases ha with rfl | rfl | rfl | rfl
      · exact hfit 2 (by decide) (by decide)
      · exact hfit 3 (by decide) (by decide)
      · exact hfit 4 (by decide) (by decide)
      · exact hfit 5 (by decide) (by decide)
    rw [h1 hin]
    simp only [Command.denote, Option.some.injEq] at hden
    exact ⟨_, by rw [← hden]; rfl⟩
  · simp only [Command.fields] at hvs
    obtain ⟨a1, b1, w1, ok1, f1, -, rfl⟩ := (fields_cons_iff _ _ _ _).1 hvs
    obtain ⟨a2, b2, w2, ok2, f2, -, rfl⟩ := (fields_cons_iff _ _ _ _).1 f1
    obtain ⟨a3, b3, w3, ok3, f3, -, rfl⟩ := (fields_cons_iff _ _ _ _).1 f2
    obtain ⟨a4, b4, w4, ok4, f4, -, rfl⟩ := (fields_cons_iff _ _ _ _).1 f3
    obtain ⟨a5, b5, w5, ok5, f5, -, rfl⟩ := (fields_cons_iff _ _ _ _).1 f4
    obtain ⟨-, rfl⟩ := (fields_nil_iff _ _).1 f5
    refine ⟨ok1, hcerr, fun hfit => ?_⟩
    have hin : Command.inRange Command.AddAONLimitOrder [a1, a2, a3, a4, a5] := by
      intro a ha
      simp only [Command.fields, numerals, List.mem_cons, List.mem_singleton,
        List.not_mem_nil, or_false] at ha
      rcases ha with rfl | rfl | rfl | rfl
      · exact hfit 2 (by decide) (by decide)
      · exact hfit 3 (by decide) (by decide)
      · exact hfit 4 (by decide) (by decide)
      · exact hfit 5 (by decide) (by decide)
    rw [h1 hin]
    simp only [Command.denote, Option.some.injEq] at hden
    exact ⟨_, by rw [← hden]; rfl⟩

/-- The order handlers at the command `add limit sell 4 2 99 10`. -/
theorem invalid_side_unreachable_witness :
    regex_search "add limit sell 4 2 99 10".toList Command.AddLimitOrder.pattern =
      some ⟨[(5, "10".toList), (4, "99".toList), (3, "2".toList), (2, "4".toList),
        (1, "sell".toList)]⟩ ∧
    (∀ (kind : String) (side : Str),
      Cerr.InvalidSide kind side ∉
        (Command.AddLimitOrder.handler idleMarket () "add limit sell 4 2 99 10".toList).cerr) :=
  ⟨by decide,
    (invalid_side_unreachable idleMarket () Command.AddLimitOrder (Or.inr (Or.inr (Or.inl rfl)))
      "add limit sell 4 2 99 10".toList
      ⟨[(5, "10".toList), (4, "99".toList), (3, "2".toList), (2, "4".toList),
        (1, "sell".toList)]⟩ (by decide)).2.1⟩

/-- Claim C10 at a failing input: the pattern of `AddMarketOrder` matches
`add market buy 2147483648 1 1` and captures the side `buy`, but the handler
constructs no order and issues no `AddOrder`: `std::stoi` throws
`out_of_range` on the id, which the handler stores in a `uint64_t`. -/
theorem matched_command_without_order :
    regex_search "add market buy 2147483648 1 1".toList AddMarketOrder.pattern =
      some ⟨[(4, "1".toList), (3, "1".toList), (2, "2147483648".toList),
        (1, "buy".toList)]⟩ ∧
    (AddMarketOrder idleMarket () "add market buy 2147483648 1 1".toList).calls = [] ∧
    (AddMarketOrder idleMarket () "add market buy 2147483648 1 1".toList).thrown =
      some Exception.out_of_range := by
  decide

/-! ## Evaluations of the driver -/

/-- Claim C5 at a failing input: with the price or the quantity 2147483648
(below 2^64, above the largest `int`) the line `add limit buy 1 1 P Q`
submits no order; `out_of_range` escapes and terminates the program. -/
theorem add_limit_price_beyond_int :
    (processLine idleMarket () "add limit buy 1 1 2147483648 1".toList).calls = [] ∧
    (processLine idleMarket () "add limit buy 1 1 2147483648 1".toList).flow =
      Flow.terminate Exception.out_of_range ∧
    (processLine idleMarket () "add limit buy 1 1 1 2147483648".toList).calls = [] ∧
    (processLine idleMarket () "add limit buy 1 1 1 2147483648".toList).flow =
      Flow.terminate Exception.out_of_range := by
  decide

/-- Claim C6 at a failing input: after the line `add book 2147483648` the
program is terminated, so the operation of the following line `add book 1`
is never issued although no `exit` or `quit` line precedes it. -/
theorem lines_after_bad_numeral_dropped :
    (mainLoop idleMarket ["add book 2147483648".toList, "add book 1".toList] ()).calls = [] ∧
    (mainLoop idleMarket ["add book 2147483648".toList, "add book 1".toList] ()).terminated =
      some Exception.out_of_range ∧
    (processLine idleMarket () "add book 2147483648".toList).calls ++
      (processLine idleMarket () "add book 1".toList).calls = [Op.AddOrderBook ⟨1, []⟩] := by
  decide

/-- Claim C8 at a failing input: the line `enable matching` makes the driver
issue `EnableMatching`, it starts with none of the keywords that `help`
lists, and no line of the help output mentions it; every listed keyword does
occur in the help output. -/
theorem enable_matching_not_listed :
    (processLine idleMarket () "enable matching".toList).calls = [Op.EnableMatching] ∧
    (∀ k ∈ listedKeywords, k.isPrefixOf "enable matching".toList = false) ∧
    (∀ h ∈ helpText, find h "enable matching".toList = none) ∧
    (∀ k ∈ listedKeywords, ∃ h ∈ helpCommands, find h k ≠ none) := by
  decide

/-- Claim C9, as amended: the callbacks that `MyMarketHandler` implements are
pairwise distinct and there are exactly twelve of them. -/
theorem observer_has_twelve_callbacks :
    MyMarketHandler.Nodup ∧ MyMarketHandler.length = 12 ∧
      MyMarketHandler.toFinset.card = 12 := by
  decide

/-- Claim C9 fails as stated: the set of callbacks that `MyMarketHandler`
implements does not have eleven members. -/
theorem observer_not_eleven_callbacks : MyMarketHandler.toFinset.card ≠ 11 := by
  decide

end MatchingEngine
